import Mathlib

/-!
# lhcb.cxx : the three-kaon invariant-mass benchmark

A shallow embedding of `src/lhcb.cxx`.

* A C++ `double` is a value of an ordered field `α` (exact arithmetic; the
  theorems about square roots instantiate `α := ℝ`).  `sqrt` is passed to the
  kinematics as an explicit function so that every definition stays
  executable.
* A C++ `int` flag (`H?_isMuon`) is an `Int`; only its truth value is used.
* A `steady_clock::time_point` is an `Int` number of clock ticks; a
  default-constructed `time_point` is the epoch, `0`.
* The tree / ntuple handed to a strategy is the list of its entries in storage
  order.
-/

namespace Lhcb

/-! ## Data model -/

/-- The six branches `H?_PX … H?_isMuon` of one candidate. -/
structure Candidate (α : Type) where
  PX : α
  PY : α
  PZ : α
  ProbK : α
  ProbPi : α
  isMuon : Int

/-- One entry of `DecayTree`: the 18 fields, grouped by candidate. -/
structure Event (α : Type) where
  H1 : Candidate α
  H2 : Candidate α
  H3 : Candidate α

/-- The 18 branches bound by `SetBranchAddress` in `TreeDirect`. -/
inductive Branch
  | H1_PX | H1_PY | H1_PZ | H1_ProbK | H1_ProbPi | H1_isMuon
  | H2_PX | H2_PY | H2_PZ | H2_ProbK | H2_ProbPi | H2_isMuon
  | H3_PX | H3_PY | H3_PZ | H3_ProbK | H3_ProbPi | H3_isMuon
  deriving DecidableEq, Repr

section Kinematics

variable {α : Type} [LinearOrderedField α]

/-- The constant `constexpr double kKaonMassMeV = 493.677;`. -/
def kKaonMassMeV : α := 493.677

/-- The function `GetP2(slot, px, py, pz)`; the slot is unused. -/
def GetP2 (_slot : Nat) (px py pz : α) : α :=
  px * px + py * py + pz * pz

/-- The function `GetKE(slot, px, py, pz)`; the slot is unused and the body
calls `GetP2(0, px, py, pz)`. -/
def GetKE (sqrt : α → α) (_slot : Nat) (px py pz : α) : α :=
  let p2 := GetP2 0 px py pz
  sqrt (p2 + kKaonMassMeV * kKaonMassMeV)

/-- Lines 261–269 of `TreeDirect` (and 353–361 of `NTupleDirect`): the value
passed to `hMass->Fill`. -/
def b_mass (sqrt : α → α) (ev : Event α) : α :=
  let b_px := ev.H1.PX + ev.H2.PX + ev.H3.PX
  let b_py := ev.H1.PY + ev.H2.PY + ev.H3.PY
  let b_pz := ev.H1.PZ + ev.H2.PZ + ev.H3.PZ
  let b_p2 := GetP2 0 b_px b_py b_pz
  let k1_E := GetKE sqrt 0 ev.H1.PX ev.H1.PY ev.H1.PZ
  let k2_E := GetKE sqrt 0 ev.H2.PX ev.H2.PY ev.H2.PZ
  let k3_E := GetKE sqrt 0 ev.H3.PX ev.H3.PY ev.H3.PZ
  let b_E := k1_E + k2_E + k3_E
  sqrt (b_E * b_E - b_p2)

end Kinematics

/-! ## The selection and fill of the two direct strategies -/

section Direct

variable {α : Type} [LinearOrderedField α]

/-- Lines 228–270 of `TreeDirect`: one pass of the loop body over the entry
`ev`.  The first component lists the branches on which `GetEntry(entryId)` was
called, in call order; the second is the argument of `hMass->Fill`, or `none`
when a `continue` was taken. -/
def TreeDirect.entry (sqrt : α → α) (ev : Event α) : List Branch × Option α :=
  let prob_k_cut : α := 0.5
  let prob_pi_cut : α := 0.5
  if ev.H1.isMuon ≠ 0 then ([.H1_isMuon], none) else
  if ev.H2.isMuon ≠ 0 then ([.H1_isMuon, .H2_isMuon], none) else
  if ev.H3.isMuon ≠ 0 then ([.H1_isMuon, .H2_isMuon, .H3_isMuon], none) else
  if ev.H1.ProbK < prob_k_cut then
    ([.H1_isMuon, .H2_isMuon, .H3_isMuon, .H1_ProbK], none) else
  if ev.H2.ProbK < prob_k_cut then
    ([.H1_isMuon, .H2_isMuon, .H3_isMuon, .H1_ProbK, .H2_ProbK], none) else
  if ev.H3.ProbK < prob_k_cut then
    ([.H1_isMuon, .H2_isMuon, .H3_isMuon, .H1_ProbK, .H2_ProbK, .H3_ProbK], none) else
  if ev.H1.ProbPi > prob_pi_cut then
    ([.H1_isMuon, .H2_isMuon, .H3_isMuon, .H1_ProbK, .H2_ProbK, .H3_ProbK,
      .H1_ProbPi], none) else
  if ev.H2.ProbPi > prob_pi_cut then
    ([.H1_isMuon, .H2_isMuon, .H3_isMuon, .H1_ProbK, .H2_ProbK, .H3_ProbK,
      .H1_ProbPi, .H2_ProbPi], none) else
  if ev.H3.ProbPi > prob_pi_cut then
    ([.H1_isMuon, .H2_isMuon, .H3_isMuon, .H1_ProbK, .H2_ProbK, .H3_ProbK,
      .H1_ProbPi, .H2_ProbPi, .H3_ProbPi], none) else
  ([.H1_isMuon, .H2_isMuon, .H3_isMuon, .H1_ProbK, .H2_ProbK, .H3_ProbK,
    .H1_ProbPi, .H2_ProbPi, .H3_ProbPi,
    .H1_PX, .H1_PY, .H1_PZ, .H2_PX, .H2_PY, .H2_PZ, .H3_PX, .H3_PY, .H3_PZ],
   some (b_mass sqrt ev))

/-- Lines 339–362 of `NTupleDirect`: one pass of the loop body over the index
whose views hold `ev`; the argument of `hMass->Fill`, or `none` when a
`continue` was taken. -/
def NTupleDirect.entry (sqrt : α → α) (ev : Event α) : Option α :=
  let prob_k_cut : α := 0.5
  let prob_pi_cut : α := 0.5
  if ev.H1.isMuon ≠ 0 ∨ ev.H2.isMuon ≠ 0 ∨ ev.H3.isMuon ≠ 0 then none else
  if ev.H1.ProbK < prob_k_cut then none else
  if ev.H2.ProbK < prob_k_cut then none else
  if ev.H3.ProbK < prob_k_cut then none else
  if ev.H1.ProbPi > prob_pi_cut then none else
  if ev.H2.ProbPi > prob_pi_cut then none else
  if ev.H3.ProbPi > prob_pi_cut then none else
  some (b_mass sqrt ev)

end Direct

/-! ## The lambdas and the filter/define chain of `Dataframe` -/

section DataframeChain

variable {α : Type} [LinearOrderedField α]

/-- The lambda `[](int is_muon) { return !is_muon; }`. -/
def fn_muon_cut (is_muon : Int) : Bool := !(decide (is_muon ≠ 0))

/-- The lambda `[](double prob_k) { return prob_k > 0.5; }`. -/
def fn_k_cut (prob_k : α) : Bool := decide (prob_k > 0.5)

/-- The lambda `[](double prob_pi) { return prob_pi < 0.5; }`. -/
def fn_pi_cut (prob_pi : α) : Bool := decide (prob_pi < 0.5)

/-- The lambda `[](unsigned int slot, double p1, double p2, double p3) { return p1 + p2 + p3; }`. -/
def fn_sum (_slot : Nat) (p1 p2 p3 : α) : α := p1 + p2 + p3

/-- The lambda `[](unsigned int slot, double B_E, double B_P2) { double r = sqrt(B_E*B_E - B_P2); return r; }`. -/
def fn_mass (sqrt : α → α) (_slot : Nat) (B_E B_P2 : α) : α :=
  let r := sqrt (B_E * B_E - B_P2)
  r

/-- The locals `ts_first`, `ts_first_set` of `Dataframe` captured by reference
in the `TIMING` lambda. -/
structure TimingState where
  ts_first : Int
  ts_first_set : Bool
  deriving DecidableEq, Repr

/-- The `TIMING` lambda (lines 109–115), run on `slot` while the clock reads
`now`: the returned column value and the captured state afterwards. -/
def TIMING (now : Int) (slot : Nat) (st : TimingState) : Bool × TimingState :=
  if slot > 0 then (true, st)
  else
    let st1 : TimingState :=
      if !st.ts_first_set then { st with ts_first := now } else st
    let st2 : TimingState := { st1 with ts_first_set := true }
    (st2.ts_first_set, st2)

/-- The column `B_m` of `df_mass` (lines 126–134) for one entry on `slot`. -/
def Dataframe.B_m (sqrt : α → α) (slot : Nat) (ev : Event α) : α :=
  let B_PX := fn_sum slot ev.H1.PX ev.H2.PX ev.H3.PX
  let B_PY := fn_sum slot ev.H1.PY ev.H2.PY ev.H3.PY
  let B_PZ := fn_sum slot ev.H1.PZ ev.H2.PZ ev.H3.PZ
  let B_P2 := GetP2 slot B_PX B_PY B_PZ
  let K1_E := GetKE sqrt slot ev.H1.PX ev.H1.PY ev.H1.PZ
  let K2_E := GetKE sqrt slot ev.H2.PX ev.H2.PY ev.H2.PZ
  let K3_E := GetKE sqrt slot ev.H3.PX ev.H3.PY ev.H3.PZ
  let B_E := fn_sum slot K1_E K2_E K3_E
  fn_mass sqrt slot B_E B_P2

/-- The chain `df_muon_cut`, `df_k_cut`, `df_pi_cut` (lines 117–125): the nine
filters in the order they are chained, each evaluated only when all the
earlier ones returned true. -/
def Dataframe.cuts (ev : Event α) : Bool :=
  fn_muon_cut ev.H1.isMuon && fn_muon_cut ev.H2.isMuon && fn_muon_cut ev.H3.isMuon
    && fn_k_cut ev.H1.ProbK && fn_k_cut ev.H2.ProbK && fn_k_cut ev.H3.ProbK
    && fn_pi_cut ev.H1.ProbPi && fn_pi_cut ev.H2.ProbPi && fn_pi_cut ev.H3.ProbPi

/-- One entry through the whole graph on `slot` while the clock reads `now`:
the `TIMING` column and its filter `[](bool b){ return b; }`, the nine cuts,
then `B_m`.  Returns the value handed to `Histo1D`, or `none` when a filter
rejected the entry, and the captured timing state afterwards. -/
def Dataframe.entry (sqrt : α → α) (now : Int) (slot : Nat) (st : TimingState)
    (ev : Event α) : Option α × TimingState :=
  let t := TIMING now slot st
  if t.1 && Dataframe.cuts ev then (some (Dataframe.B_m sqrt slot ev), t.2)
  else (none, t.2)

end DataframeChain

/-! ## The histogram `B_mass` -/

section Histogram

variable {α : Type} [LinearOrderedField α] [FloorRing α]

/-- Modelled from the spec: `TH1D` is a class of the ROOT library, which is
not part of this repository.  The histogram made by
`TH1D("B_mass", "", 500, 5050, 5500)` (and by `Histo1D`) has 500 bins of equal
width spanning [5050, 5500); a fill adds one count to the bin that contains the
value and a value outside the range is dropped from the bins.  `fEntries`
counts the calls of `Fill`; `fArray k` is the content of bin `k`, `k < 500`. -/
structure TH1D where
  fEntries : Nat
  fArray : Nat → Nat

/-- The number of bins, the third argument of the constructor. -/
def TH1D.nbinsx : Nat := 500

/-- The lower edge, the fourth argument of the constructor. -/
def TH1D.xlow : α := 5050

/-- The upper edge, the fifth argument of the constructor. -/
def TH1D.xup : α := 5500

/-- A freshly constructed histogram: no entries, all bins empty. -/
def TH1D.new : TH1D := { fEntries := 0, fArray := fun _ => 0 }

/-- The value lies in the range [5050, 5500) covered by the 500 bins. -/
def TH1D.inRange (x : α) : Prop := TH1D.xlow ≤ x ∧ x < TH1D.xup

instance (x : α) : Decidable (TH1D.inRange x) := by
  unfold TH1D.inRange; infer_instance

/-- The bin (counted from 0) of an in-range value: bins have equal width
`(5500 - 5050) / 500`. -/
def TH1D.FindBin (x : α) : Nat :=
  ⌊(TH1D.nbinsx : α) * (x - TH1D.xlow) / (TH1D.xup - TH1D.xlow)⌋₊

/-- The method `Fill(x)`: one more entry, and one more count in the bin of `x`
when `x` is in range. -/
def TH1D.Fill (h : TH1D) (x : α) : TH1D :=
  { fEntries := h.fEntries + 1,
    fArray := fun k =>
      if TH1D.inRange x ∧ TH1D.FindBin x = k then h.fArray k + 1 else h.fArray k }

/-- Modelled from the spec: the reduction that merges two partial histograms
by per-bin summation (§5); it belongs to the dataframe engine, not to this
repository. -/
def TH1D.Add (h g : TH1D) : TH1D :=
  { fEntries := h.fEntries + g.fEntries,
    fArray := fun k => h.fArray k + g.fArray k }

/-- The histogram after `Fill` was called on each value of `xs` in turn. -/
def TH1D.FillAll (h : TH1D) (xs : List α) : TH1D := xs.foldl TH1D.Fill h

/-- The total content of the 500 bins. -/
def TH1D.Integral (h : TH1D) : Nat :=
  ∑ k in Finset.range TH1D.nbinsx, h.fArray k

/-- Modelled from the spec: the final reduction over the partial histograms of
all partitions, by per-bin summation (§5). -/
def TH1D.Merge (parts : List TH1D) : TH1D := parts.foldr TH1D.Add TH1D.new

end Histogram

/-! ## Clock, timing report and the three strategies -/

section Strategies

variable {α : Type} [LinearOrderedField α] [FloorRing α]

/-- The readings of `std::chrono::steady_clock::now()` that a run can observe,
in clock ticks: `init` where `ts_init` is taken, `iter k` at the top of the
`k`-th pass (counted from 0) of the event loop, `fin` where `ts_end` is
taken. -/
structure Clock where
  init : Int
  iter : Nat → Int
  fin : Int

/-- A steady clock never goes back: the readings are non-decreasing in the
order in which the run can take them. -/
def Clock.Steady (c : Clock) : Prop :=
  (∀ k, c.init ≤ c.iter k) ∧ (∀ j k, j ≤ k → c.iter j ≤ c.iter k) ∧ (∀ k, c.iter k ≤ c.fin)
    ∧ c.init ≤ c.fin

/-- The conversion `std::chrono::duration_cast<std::chrono::microseconds>(d).count()`
of a difference of `d` ticks, `ticksPerUs` ticks making one microsecond: the
quotient truncated toward zero. -/
def duration_cast_us (ticksPerUs : Nat) (d : Int) : Int := Int.tdiv d ticksPerUs

/-- What a strategy leaves behind: the histogram, the local `ts_first`, and
the two printed durations. -/
structure Run where
  hMass : TH1D
  ts_first : Int
  runtime_init : Int
  runtime_analyze : Int

/-- The `for` loop of `TreeDirect` (lines 219–273) over the remaining entries,
`entryId` being the index of the first of them; the state is `hMass` and
`ts_first`. -/
def TreeDirect.loop (sqrt : α → α) (clock : Clock) :
    List (Event α) → Nat → TH1D × Int → TH1D × Int
  | [], _, s => s
  | ev :: rest, entryId, (hMass, ts_first) =>
      let ts_first := if entryId = 1 then clock.iter entryId else ts_first
      let hMass := match (TreeDirect.entry sqrt ev).2 with
        | some b_mass => hMass.Fill b_mass
        | none => hMass
      TreeDirect.loop sqrt clock rest (entryId + 1) (hMass, ts_first)

/-- The function `TreeDirect` on a tree holding the entries `tree`;
`ts_first` starts as a default-constructed `time_point`. -/
def TreeDirect (sqrt : α → α) (ticksPerUs : Nat) (clock : Clock) (tree : List (Event α)) :
    Run :=
  let ts_init := clock.init
  let r := TreeDirect.loop sqrt clock tree 0 (TH1D.new, 0)
  let ts_first := r.2
  let ts_end := clock.fin
  { hMass := r.1
    ts_first := ts_first
    runtime_init := duration_cast_us ticksPerUs (ts_first - ts_init)
    runtime_analyze := duration_cast_us ticksPerUs (ts_end - ts_first) }

/-- The range-`for` loop of `NTupleDirect` (lines 329–363) over the remaining
indices, `i` being the position of the first of them; the state is `hMass`,
`ts_first` and the 32-bit counter `unsigned nevents`. -/
def NTupleDirect.loop (sqrt : α → α) (clock : Clock) :
    List (Event α) → Nat → TH1D × Int × Nat → TH1D × Int × Nat
  | [], _, s => s
  | ev :: rest, i, (hMass, ts_first, nevents) =>
      let nevents := (nevents + 1) % 2 ^ 32
      let ts_first := if nevents = 1 then clock.iter i else ts_first
      let hMass := match NTupleDirect.entry sqrt ev with
        | some b_mass => hMass.Fill b_mass
        | none => hMass
      NTupleDirect.loop sqrt clock rest (i + 1) (hMass, ts_first, nevents)

/-- The function `NTupleDirect` on an ntuple holding the entries `ntuple`. -/
def NTupleDirect (sqrt : α → α) (ticksPerUs : Nat) (clock : Clock)
    (ntuple : List (Event α)) : Run :=
  let ts_init := clock.init
  let r := NTupleDirect.loop sqrt clock ntuple 0 (TH1D.new, 0, 0)
  let ts_first := r.2.1
  let ts_end := clock.fin
  { hMass := r.1
    ts_first := ts_first
    runtime_init := duration_cast_us ticksPerUs (ts_first - ts_init)
    runtime_analyze := duration_cast_us ticksPerUs (ts_end - ts_first) }

/-- Modelled from the spec: the event loop belongs to the dataframe engine,
not to this repository.  One worker on `slot` takes a contiguous partition of
the entries through the graph, filling its private partial histogram (§5);
`k` counts the entries processed so far and indexes the clock. -/
def Dataframe.task (sqrt : α → α) (clock : Clock) (slot : Nat) :
    List (Event α) → TH1D × TimingState × Nat → TH1D × TimingState × Nat
  | [], s => s
  | ev :: rest, (h, st, k) =>
      let r := Dataframe.entry sqrt (clock.iter k) slot st ev
      let h := match r.1 with
        | some B_m => h.Fill B_m
        | none => h
      Dataframe.task sqrt clock slot rest (h, r.2, k + 1)

/-- Modelled from the spec: the work of the engine as the list of its tasks in
the order they touch the captured timing state, each a slot with the partition
it processes; every task fills a fresh partial histogram and the partial
histograms are merged by per-bin summation (§5). -/
def Dataframe.run (sqrt : α → α) (clock : Clock) :
    List (Nat × List (Event α)) → TimingState × Nat → TH1D × TimingState × Nat
  | [], (st, k) => (TH1D.new, st, k)
  | (slot, part) :: rest, (st, k) =>
      let r := Dataframe.task sqrt clock slot part (TH1D.new, st, k)
      let r2 := Dataframe.run sqrt clock rest (r.2.1, r.2.2)
      (TH1D.Add r.1 r2.1, r2.2.1, r2.2.2)

/-- The function `Dataframe`: `*hMass` runs the event loop over `tasks`;
`ts_first` starts as a default-constructed `time_point` and `ts_first_set` as
`false`. -/
def Dataframe (sqrt : α → α) (ticksPerUs : Nat) (clock : Clock)
    (tasks : List (Nat × List (Event α))) : Run :=
  let ts_init := clock.init
  let r := Dataframe.run sqrt clock tasks ({ ts_first := 0, ts_first_set := false }, 0)
  let ts_first := r.2.1.ts_first
  let ts_end := clock.fin
  { hMass := r.1
    ts_first := ts_first
    runtime_init := duration_cast_us ticksPerUs (ts_first - ts_init)
    runtime_analyze := duration_cast_us ticksPerUs (ts_end - ts_first) }

end Strategies

/-! ## Strategy selection in `main` -/

/-- Modelled from the spec: the enumeration `FileFormats` is declared in
`util.h`, which is not among the sources.  `main` names `kRoot` and `kNtuple`;
`other tag` stands for every other enumerator. -/
inductive FileFormats
  | kRoot
  | kNtuple
  | other (tag : Nat)
  deriving DecidableEq, Repr

/-- A call made by `main` after option parsing, with its arguments. -/
inductive Call
  | EnableImplicitMT
  | TreeDirect (path : String)
  | NTupleDirect (path : String)
  | DataframeTree (path : String) (nslots : Int)
  | DataframeNTuple (path : String) (nslots : Int)
  deriving DecidableEq, Repr

/-- The call runs one of the strategies. -/
def Call.isStrategy : Call → Bool
  | .EnableImplicitMT => false
  | _ => true

/-- Lines 425–461 of `main`, after the `getopt` loop has set `input_path`,
`use_rdf` and `g_use_imt`: the calls made, in order, and the value returned.
`GetSuffix` and `GetFileFormat` come from `util.h` and are parameters.
`DataframeTree` is `Dataframe` over `RDataFrame("DecayTree", input_path)`,
`DataframeNTuple` is `Dataframe` over the `RNTupleDS` of the page source. -/
def main (GetSuffix : String → String) (GetFileFormat : String → FileFormats)
    (input_path : String) (use_rdf g_use_imt : Bool) : List Call × Int :=
  if input_path.isEmpty then ([], 1)
  else
    let pre : List Call := if g_use_imt then [.EnableImplicitMT] else []
    let suffix := GetSuffix input_path
    match GetFileFormat suffix with
    | .kRoot =>
        if use_rdf then (pre ++ [.DataframeTree input_path 1], 0)
        else (pre ++ [.TreeDirect input_path], 0)
    | .kNtuple =>
        if use_rdf then (pre ++ [.DataframeNTuple input_path 1], 0)
        else (pre ++ [.NTupleDirect input_path], 0)
    | _ => (pre, 1)

/-! ## The selection in the words of the specification, and test data -/

section SpecSide

variable {α : Type} [LinearOrderedField α]

/-- The per-candidate condition of the specification (§8):
`!isMuon && probK > 0.5 && probPi < 0.5`. -/
def Candidate.Passes (c : Candidate α) : Prop :=
  c.isMuon = 0 ∧ c.ProbK > 0.5 ∧ c.ProbPi < 0.5

/-- The selection of the specification: all three candidates pass. -/
def Selected (ev : Event α) : Prop :=
  ev.H1.Passes ∧ ev.H2.Passes ∧ ev.H3.Passes

/-- The test the direct loops apply to one candidate, read off their
`continue` statements: none of `is_muon`, `prob_k < 0.5`, `prob_pi > 0.5`
holds. -/
def Candidate.Kept (c : Candidate α) : Prop :=
  c.isMuon = 0 ∧ ¬ c.ProbK < 0.5 ∧ ¬ c.ProbPi > 0.5

/-- No `continue` of a direct loop fires on the entry. -/
def Kept (ev : Event α) : Prop :=
  ev.H1.Kept ∧ ev.H2.Kept ∧ ev.H3.Kept

instance (c : Candidate α) : Decidable c.Passes := by
  unfold Candidate.Passes; infer_instance

instance (ev : Event α) : Decidable (Selected ev) := by
  unfold Selected; infer_instance

instance (c : Candidate α) : Decidable c.Kept := by
  unfold Candidate.Kept; infer_instance

instance (ev : Event α) : Decidable (Kept ev) := by
  unfold Kept; infer_instance

/-- The masses of the entries on which no `continue` of a direct loop fires,
in storage order. -/
def keptMasses (sqrt : α → α) (tree : List (Event α)) : List α :=
  (tree.filter (fun ev => decide (Kept ev))).map (b_mass sqrt)

/-- The masses of the entries selected in the sense of the specification, in
storage order. -/
def selectedMasses (sqrt : α → α) (tree : List (Event α)) : List α :=
  (tree.filter (fun ev => decide (Selected ev))).map (b_mass sqrt)

/-- The argument of the final `sqrt` of the mass computation (line 269 of
`TreeDirect`, line 361 of `NTupleDirect`, the lambda `fn_mass`):
`b_E*b_E - b_p2`. -/
def b_radicand (sqrt : α → α) (ev : Event α) : α :=
  let b_px := ev.H1.PX + ev.H2.PX + ev.H3.PX
  let b_py := ev.H1.PY + ev.H2.PY + ev.H3.PY
  let b_pz := ev.H1.PZ + ev.H2.PZ + ev.H3.PZ
  let b_p2 := GetP2 0 b_px b_py b_pz
  let k1_E := GetKE sqrt 0 ev.H1.PX ev.H1.PY ev.H1.PZ
  let k2_E := GetKE sqrt 0 ev.H2.PX ev.H2.PY ev.H2.PZ
  let k3_E := GetKE sqrt 0 ev.H3.PX ev.H3.PY ev.H3.PZ
  let b_E := k1_E + k2_E + k3_E
  b_E * b_E - b_p2

/-- The branches on which one pass of the loop body of `TreeDirect` calls
`GetEntry(entryId)`, in call order. -/
def TreeDirect.fetched (sqrt : α → α) (ev : Event α) : List Branch :=
  (TreeDirect.entry sqrt ev).1

/-- The order in which the loop body of `TreeDirect` names the 18 branches
(lines 228–259). -/
def TreeDirect.fetchOrder : List Branch :=
  [.H1_isMuon, .H2_isMuon, .H3_isMuon, .H1_ProbK, .H2_ProbK, .H3_ProbK,
   .H1_ProbPi, .H2_ProbPi, .H3_ProbPi,
   .H1_PX, .H1_PY, .H1_PZ, .H2_PX, .H2_PY, .H2_PZ, .H3_PX, .H3_PY, .H3_PZ]

/-- The branch holds a muon flag. -/
def Branch.isMuonFlag : Branch → Bool
  | .H1_isMuon | .H2_isMuon | .H3_isMuon => true
  | _ => false

/-- The branch holds a pion probability. -/
def Branch.isProbPi : Branch → Bool
  | .H1_ProbPi | .H2_ProbPi | .H3_ProbPi => true
  | _ => false

/-- The branch holds a momentum component. -/
def Branch.isMomentum : Branch → Bool
  | .H1_PX | .H1_PY | .H1_PZ | .H2_PX | .H2_PY | .H2_PZ | .H3_PX | .H3_PY | .H3_PZ => true
  | _ => false

/-- The event whose candidates are `c 0`, `c 1`, `c 2`, in this order. -/
def Event.ofFn (c : Fin 3 → Candidate α) : Event α :=
  { H1 := c 0, H2 := c 1, H3 := c 2 }

/-- A candidate moving along x with the given identification values. -/
def track (px probK probPi : α) (isMuon : Int) : Candidate α :=
  { PX := px, PY := 0, PZ := 0, ProbK := probK, ProbPi := probPi, isMuon := isMuon }

/-- Two tracks back to back with |p| = 2443.70115 and a third at rest; the
first track carries the identification values under test, the other two pass
every cut with room to spare.  The mass of the three is 5479.8147. -/
def threeKaons (probK probPi : α) (isMuon : Int) : Event α :=
  { H1 := track 2443.70115 probK probPi isMuon
    H2 := track (-2443.70115) 0.9 0.1 0
    H3 := track 0 0.9 0.1 0 }

/-- The slot on which each entry of a run of `Dataframe` is processed, in
processing order: position `k` holds the slot of the `k`-th evaluation of the
`TIMING` stage. -/
def slotsOf (tasks : List (Nat × List (Event α))) : List Nat :=
  (tasks.map (fun t => List.replicate t.2.length t.1)).flatten

/-- The captured timing state after the `TIMING` lambda ran once for each slot
of the list, in order, the first of these evaluations being the `k`-th of the
run. -/
def timingAfter (clock : Clock) : List Nat → TimingState → Nat → TimingState
  | [], st, _ => st
  | s :: rest, st, k => timingAfter clock rest (TIMING (clock.iter k) s st).2 (k + 1)

/-- A table of ten rows of which exactly rows 2, 5 and 9 (counted from 0) pass
every cut; rows 0, 4, 8 carry a muon flag, rows 1, 6 a low `H1_ProbK`, rows
3, 7 a high `H1_ProbPi`. -/
def tenRows : List (Event α) :=
  [threeKaons 0.9 0.1 1, threeKaons 0.2 0.1 0, threeKaons 0.9 0.1 0, threeKaons 0.9 0.8 0,
   threeKaons 0.9 0.1 1, threeKaons 0.9 0.1 0, threeKaons 0.2 0.1 0, threeKaons 0.9 0.8 0,
   threeKaons 0.9 0.1 1, threeKaons 0.9 0.1 0]

/-- A table of ten rows of which exactly rows 2, 5 and 9 (counted from 0) are
selected in the sense of the specification; row 0 has `H1_ProbK` exactly 0.5
and passes every other cut, rows 4, 8 carry a muon flag, rows 1, 6 a low
`H1_ProbK`, rows 3, 7 a high `H1_ProbPi`. -/
def tenRowsAtThreshold : List (Event α) :=
  [threeKaons 0.5 0.1 0, threeKaons 0.2 0.1 0, threeKaons 0.9 0.1 0, threeKaons 0.9 0.8 0,
   threeKaons 0.9 0.1 1, threeKaons 0.9 0.1 0, threeKaons 0.2 0.1 0, threeKaons 0.9 0.8 0,
   threeKaons 0.9 0.1 1, threeKaons 0.9 0.1 0]

/-- A steady clock that reads 5 000 000 ticks at `ts_init`, advances 1000 ticks
per pass of the loop for the first 3000 passes, and reads 9 000 000 ticks at
`ts_end`. -/
def testClock : Clock :=
  { init := 5000000
    iter := fun k => 5000000 + 1000 * ((min (k + 1) 3000 : Nat) : Int)
    fin := 9000000 }

end SpecSide

/-! ## Lemmas -/

section EntryLemmas

variable {α : Type} [LinearOrderedField α]

theorem testClock_steady : testClock.Steady := by
  refine ⟨fun k => ?_, fun j k hjk => ?_, fun k => ?_, ?_⟩ <;>
    simp only [testClock] <;> omega

theorem NTupleDirect_entry_eq (sqrt : α → α) (ev : Event α) :
    NTupleDirect.entry sqrt ev = if Kept ev then some (b_mass sqrt ev) else none := by
  by_cases hk : Kept ev
  · rw [if_pos hk]
    obtain ⟨⟨a1, b1, c1⟩, ⟨a2, b2, c2⟩, ⟨a3, b3, c3⟩⟩ := hk
    unfold NTupleDirect.entry
    simp only []
    rw [if_neg (by simp [a1, a2, a3]), if_neg b1, if_neg b2, if_neg b3, if_neg c1, if_neg c2,
      if_neg c3]
  · rw [if_neg hk]
    unfold NTupleDirect.entry
    simp only []
    split_ifs with h0 h1 h2 h3 h4 h5 h6 <;> first | rfl | skip
    exfalso; apply hk
    unfold Kept Candidate.Kept
    tauto

theorem TreeDirect_entry_snd (sqrt : α → α) (ev : Event α) :
    (TreeDirect.entry sqrt ev).2 = if Kept ev then some (b_mass sqrt ev) else none := by
  unfold TreeDirect.entry
  simp only []
  by_cases h1 : ev.H1.isMuon ≠ 0
  · rw [if_pos h1, if_neg (fun hk : Kept ev => h1 hk.1.1)]
  rw [if_neg h1]
  by_cases h2 : ev.H2.isMuon ≠ 0
  · rw [if_pos h2, if_neg (fun hk : Kept ev => h2 hk.2.1.1)]
  rw [if_neg h2]
  by_cases h3 : ev.H3.isMuon ≠ 0
  · rw [if_pos h3, if_neg (fun hk : Kept ev => h3 hk.2.2.1)]
  rw [if_neg h3]
  by_cases h4 : ev.H1.ProbK < 0.5
  · rw [if_pos h4, if_neg (fun hk : Kept ev => hk.1.2.1 h4)]
  rw [if_neg h4]
  by_cases h5 : ev.H2.ProbK < 0.5
  · rw [if_pos h5, if_neg (fun hk : Kept ev => hk.2.1.2.1 h5)]
  rw [if_neg h5]
  by_cases h6 : ev.H3.ProbK < 0.5
  · rw [if_pos h6, if_neg (fun hk : Kept ev => hk.2.2.2.1 h6)]
  rw [if_neg h6]
  by_cases h7 : ev.H1.ProbPi > 0.5
  · rw [if_pos h7, if_neg (fun hk : Kept ev => hk.1.2.2 h7)]
  rw [if_neg h7]
  by_cases h8 : ev.H2.ProbPi > 0.5
  · rw [if_pos h8, if_neg (fun hk : Kept ev => hk.2.1.2.2 h8)]
  rw [if_neg h8]
  by_cases h9 : ev.H3.ProbPi > 0.5
  · rw [if_pos h9, if_neg (fun hk : Kept ev => hk.2.2.2.2 h9)]
  rw [if_neg h9, if_pos]
  exact ⟨⟨not_not.1 h1, h4, h7⟩, ⟨not_not.1 h2, h5, h8⟩, ⟨not_not.1 h3, h6, h9⟩⟩

theorem TreeDirect_fetched_cases (sqrt : α → α) (ev : Event α) :
    (ev.H1.isMuon ≠ 0 ∧ TreeDirect.fetched sqrt ev = TreeDirect.fetchOrder.take 1)
    ∨ (ev.H1.isMuon = 0 ∧ ev.H2.isMuon ≠ 0
        ∧ TreeDirect.fetched sqrt ev = TreeDirect.fetchOrder.take 2)
    ∨ (ev.H1.isMuon = 0 ∧ ev.H2.isMuon = 0 ∧ ev.H3.isMuon ≠ 0
        ∧ TreeDirect.fetched sqrt ev = TreeDirect.fetchOrder.take 3)
    ∨ ((ev.H1.isMuon = 0 ∧ ev.H2.isMuon = 0 ∧ ev.H3.isMuon = 0) ∧ ev.H1.ProbK < 0.5
        ∧ TreeDirect.fetched sqrt ev = TreeDirect.fetchOrder.take 4)
    ∨ ((ev.H1.isMuon = 0 ∧ ev.H2.isMuon = 0 ∧ ev.H3.isMuon = 0) ∧ ¬ ev.H1.ProbK < 0.5
        ∧ ev.H2.ProbK < 0.5 ∧ TreeDirect.fetched sqrt ev = TreeDirect.fetchOrder.take 5)
    ∨ ((ev.H1.isMuon = 0 ∧ ev.H2.isMuon = 0 ∧ ev.H3.isMuon = 0)
        ∧ (¬ ev.H1.ProbK < 0.5 ∧ ¬ ev.H2.ProbK < 0.5) ∧ ev.H3.ProbK < 0.5
        ∧ TreeDirect.fetched sqrt ev = TreeDirect.fetchOrder.take 6)
    ∨ ((ev.H1.isMuon = 0 ∧ ev.H2.isMuon = 0 ∧ ev.H3.isMuon = 0)
        ∧ (¬ ev.H1.ProbK < 0.5 ∧ ¬ ev.H2.ProbK < 0.5 ∧ ¬ ev.H3.ProbK < 0.5)
        ∧ ev.H1.ProbPi > 0.5 ∧ TreeDirect.fetched sqrt ev = TreeDirect.fetchOrder.take 7)
    ∨ ((ev.H1.isMuon = 0 ∧ ev.H2.isMuon = 0 ∧ ev.H3.isMuon = 0)
        ∧ (¬ ev.H1.ProbK < 0.5 ∧ ¬ ev.H2.ProbK < 0.5 ∧ ¬ ev.H3.ProbK < 0.5)
        ∧ ¬ ev.H1.ProbPi > 0.5 ∧ ev.H2.ProbPi > 0.5
        ∧ TreeDirect.fetched sqrt ev = TreeDirect.fetchOrder.take 8)
    ∨ ((ev.H1.isMuon = 0 ∧ ev.H2.isMuon = 0 ∧ ev.H3.isMuon = 0)
        ∧ (¬ ev.H1.ProbK < 0.5 ∧ ¬ ev.H2.ProbK < 0.5 ∧ ¬ ev.H3.ProbK < 0.5)
        ∧ (¬ ev.H1.ProbPi > 0.5 ∧ ¬ ev.H2.ProbPi > 0.5) ∧ ev.H3.ProbPi > 0.5
        ∧ TreeDirect.fetched sqrt ev = TreeDirect.fetchOrder.take 9)
    ∨ ((ev.H1.isMuon = 0 ∧ ev.H2.isMuon = 0 ∧ ev.H3.isMuon = 0)
        ∧ (¬ ev.H1.ProbK < 0.5 ∧ ¬ ev.H2.ProbK < 0.5 ∧ ¬ ev.H3.ProbK < 0.5)
        ∧ (¬ ev.H1.ProbPi > 0.5 ∧ ¬ ev.H2.ProbPi > 0.5 ∧ ¬ ev.H3.ProbPi > 0.5)
        ∧ TreeDirect.fetched sqrt ev = TreeDirect.fetchOrder) := by
  unfold TreeDirect.fetched TreeDirect.entry
  simp only []
  by_cases h1 : ev.H1.isMuon ≠ 0
  · rw [if_pos h1]; exact Or.inl ⟨h1, rfl⟩
  rw [if_neg h1]
  refine Or.inr ?_
  by_cases h2 : ev.H2.isMuon ≠ 0
  · rw [if_pos h2]; exact Or.inl ⟨not_not.1 h1, h2, rfl⟩
  rw [if_neg h2]
  refine Or.inr ?_
  by_cases h3 : ev.H3.isMuon ≠ 0
  · rw [if_pos h3]; exact Or.inl ⟨not_not.1 h1, not_not.1 h2, h3, rfl⟩
  rw [if_neg h3]
  refine Or.inr ?_
  have hM : ev.H1.isMuon = 0 ∧ ev.H2.isMuon = 0 ∧ ev.H3.isMuon = 0 :=
    ⟨not_not.1 h1, not_not.1 h2, not_not.1 h3⟩
  by_cases h4 : ev.H1.ProbK < 0.5
  · rw [if_pos h4]; exact Or.inl ⟨hM, h4, rfl⟩
  rw [if_neg h4]
  refine Or.inr ?_
  by_cases h5 : ev.H2.ProbK < 0.5
  · rw [if_pos h5]; exact Or.inl ⟨hM, h4, h5, rfl⟩
  rw [if_neg h5]
  refine Or.inr ?_
  by_cases h6 : ev.H3.ProbK < 0.5
  · rw [if_pos h6]; exact Or.inl ⟨hM, ⟨h4, h5⟩, h6, rfl⟩
  rw [if_neg h6]
  refine Or.inr ?_
  by_cases h7 : ev.H1.ProbPi > 0.5
  · rw [if_pos h7]; exact Or.inl ⟨hM, ⟨h4, h5, h6⟩, h7, rfl⟩
  rw [if_neg h7]
  refine Or.inr ?_
  by_cases h8 : ev.H2.ProbPi > 0.5
  · rw [if_pos h8]; exact Or.inl ⟨hM, ⟨h4, h5, h6⟩, h7, h8, rfl⟩
  rw [if_neg h8]
  refine Or.inr ?_
  by_cases h9 : ev.H3.ProbPi > 0.5
  · rw [if_pos h9]; exact Or.inl ⟨hM, ⟨h4, h5, h6⟩, ⟨h7, h8⟩, h9, rfl⟩
  rw [if_neg h9]
  exact Or.inr ⟨hM, ⟨h4, h5, h6⟩, ⟨h7, h8, h9⟩, rfl⟩

theorem Dataframe_cuts_iff (ev : Event α) : Dataframe.cuts ev = true ↔ Selected ev := by
  simp only [Dataframe.cuts, fn_muon_cut, fn_k_cut, fn_pi_cut, Selected, Candidate.Passes,
    Bool.and_eq_true, Bool.not_eq_true', decide_eq_true_eq, decide_eq_false_iff_not, not_not]
  tauto

theorem Dataframe_B_m_eq (sqrt : α → α) (slot : Nat) (ev : Event α) :
    Dataframe.B_m sqrt slot ev = b_mass sqrt ev := rfl

theorem TIMING_fst (now : Int) (slot : Nat) (st : TimingState) :
    (TIMING now slot st).1 = true := by
  unfold TIMING
  split_ifs <;> rfl

theorem Dataframe_entry_fst (sqrt : α → α) (now : Int) (slot : Nat) (st : TimingState)
    (ev : Event α) :
    (Dataframe.entry sqrt now slot st ev).1
      = if Selected ev then some (b_mass sqrt ev) else none := by
  unfold Dataframe.entry
  simp only [TIMING_fst, Bool.true_and, Dataframe_B_m_eq]
  by_cases h : Selected ev
  · simp [h, (Dataframe_cuts_iff ev).2 h]
  · have : Dataframe.cuts ev = false := by
      rw [← Bool.not_eq_true]; exact fun hc => h ((Dataframe_cuts_iff ev).1 hc)
    simp [h, this]

theorem Dataframe_entry_snd (sqrt : α → α) (now : Int) (slot : Nat) (st : TimingState)
    (ev : Event α) :
    (Dataframe.entry sqrt now slot st ev).2 = (TIMING now slot st).2 := by
  unfold Dataframe.entry
  simp only []
  split_ifs <;> rfl

theorem Selected.kept {ev : Event α} (h : Selected ev) : Kept ev := by
  obtain ⟨⟨a1, b1, c1⟩, ⟨a2, b2, c2⟩, ⟨a3, b3, c3⟩⟩ := h
  exact ⟨⟨a1, not_lt.2 b1.le, not_lt.2 c1.le⟩, ⟨a2, not_lt.2 b2.le, not_lt.2 c2.le⟩,
    ⟨a3, not_lt.2 b3.le, not_lt.2 c3.le⟩⟩

theorem selectedMasses_append (sqrt : α → α) (xs ys : List (Event α)) :
    selectedMasses sqrt (xs ++ ys) = selectedMasses sqrt xs ++ selectedMasses sqrt ys := by
  simp [selectedMasses]

theorem keptMasses_append (sqrt : α → α) (xs ys : List (Event α)) :
    keptMasses sqrt (xs ++ ys) = keptMasses sqrt xs ++ keptMasses sqrt ys := by
  simp [keptMasses]

end EntryLemmas

section HistogramLemmas

variable {α : Type} [LinearOrderedField α] [FloorRing α]

theorem TH1D.eq_of {h g : TH1D} (he : h.fEntries = g.fEntries)
    (ha : ∀ k, h.fArray k = g.fArray k) : h = g := by
  cases h; cases g
  simp only [TH1D.mk.injEq]
  exact ⟨he, funext ha⟩

theorem TH1D.FindBin_lt {x : α} (hx : TH1D.inRange x) : TH1D.FindBin x < TH1D.nbinsx := by
  obtain ⟨h1, h2⟩ := hx
  unfold TH1D.xlow at h1
  unfold TH1D.xup at h2
  unfold TH1D.FindBin TH1D.nbinsx TH1D.xlow TH1D.xup
  have h0 : (0 : α) ≤ ((500 : ℕ) : α) * (x - 5050) / (5500 - 5050) := by
    apply div_nonneg
    · apply mul_nonneg
      · positivity
      · linarith
    · norm_num
  rw [Nat.floor_lt h0, div_lt_iff₀ (by norm_num)]
  push_cast
  linarith

theorem TH1D.FillAll_cons (h : TH1D) (x : α) (xs : List α) :
    h.FillAll (x :: xs) = (h.Fill x).FillAll xs := rfl

theorem TH1D.FillAll_append (h : TH1D) (xs ys : List α) :
    h.FillAll (xs ++ ys) = (h.FillAll xs).FillAll ys := by
  unfold TH1D.FillAll
  rw [List.foldl_append]

theorem TH1D.FillAll_fEntries (h : TH1D) (xs : List α) :
    (h.FillAll xs).fEntries = h.fEntries + xs.length := by
  induction xs generalizing h with
  | nil => rfl
  | cons x xs ih =>
      rw [TH1D.FillAll_cons, ih, List.length_cons]
      simp only [TH1D.Fill]
      omega

theorem TH1D.FillAll_fArray (h : TH1D) (xs : List α) (k : Nat) :
    (h.FillAll xs).fArray k
      = h.fArray k + xs.countP (fun x => decide (TH1D.inRange x ∧ TH1D.FindBin x = k)) := by
  induction xs generalizing h with
  | nil => rfl
  | cons x xs ih =>
      rw [TH1D.FillAll_cons, ih, List.countP_cons]
      simp only [TH1D.Fill]
      by_cases hx : TH1D.inRange x ∧ TH1D.FindBin x = k
      · simp only [hx, and_self, if_true, decide_True]
        omega
      · simp only [hx, if_false, decide_False]
        simp

theorem TH1D.FillAll_eq_Add (h : TH1D) (xs : List α) :
    h.FillAll xs = TH1D.Add h (TH1D.new.FillAll xs) := by
  apply TH1D.eq_of
  · simp [TH1D.Add, TH1D.FillAll_fEntries, TH1D.new]
  · intro k
    simp [TH1D.Add, TH1D.FillAll_fArray, TH1D.new]

theorem TH1D.FillAll_perm (h : TH1D) {xs ys : List α} (p : xs.Perm ys) :
    h.FillAll xs = h.FillAll ys := by
  apply TH1D.eq_of
  · rw [TH1D.FillAll_fEntries, TH1D.FillAll_fEntries, p.length_eq]
  · intro k
    rw [TH1D.FillAll_fArray, TH1D.FillAll_fArray, p.countP_eq]

end HistogramLemmas

section LoopLemmas

variable {α : Type} [LinearOrderedField α] [FloorRing α]

theorem TreeDirect_loop_fst (sqrt : α → α) (clock : Clock) (tree : List (Event α))
    (entryId : Nat) (h : TH1D) (t : Int) :
    (TreeDirect.loop sqrt clock tree entryId (h, t)).1 = h.FillAll (keptMasses sqrt tree) := by
  induction tree generalizing entryId h t with
  | nil => rfl
  | cons ev rest ih =>
      simp only [TreeDirect.loop, ih, TreeDirect_entry_snd, keptMasses, List.filter_cons]
      by_cases hk : Kept ev <;> simp [hk, TH1D.FillAll_cons]

theorem NTupleDirect_loop_fst (sqrt : α → α) (clock : Clock) (ntuple : List (Event α))
    (i : Nat) (h : TH1D) (t : Int) (nevents : Nat) :
    (NTupleDirect.loop sqrt clock ntuple i (h, t, nevents)).1
      = h.FillAll (keptMasses sqrt ntuple) := by
  induction ntuple generalizing i h t nevents with
  | nil => rfl
  | cons ev rest ih =>
      simp only [NTupleDirect.loop, ih, NTupleDirect_entry_eq, keptMasses, List.filter_cons]
      by_cases hk : Kept ev <;> simp [hk, TH1D.FillAll_cons]

theorem Dataframe_task_fst (sqrt : α → α) (clock : Clock) (slot : Nat)
    (part : List (Event α)) (h : TH1D) (st : TimingState) (k : Nat) :
    (Dataframe.task sqrt clock slot part (h, st, k)).1
      = h.FillAll (selectedMasses sqrt part) := by
  induction part generalizing h st k with
  | nil => rfl
  | cons ev rest ih =>
      simp only [Dataframe.task, ih, Dataframe_entry_fst, selectedMasses, List.filter_cons]
      by_cases hs : Selected ev <;> simp [hs, TH1D.FillAll_cons]

theorem Dataframe_run_fst (sqrt : α → α) (clock : Clock)
    (tasks : List (Nat × List (Event α))) (st : TimingState) (k : Nat) :
    (Dataframe.run sqrt clock tasks (st, k)).1
      = TH1D.new.FillAll (selectedMasses sqrt (tasks.map Prod.snd).flatten) := by
  induction tasks generalizing st k with
  | nil => rfl
  | cons t rest ih =>
      obtain ⟨slot, part⟩ := t
      simp only [Dataframe.run, ih, Dataframe_task_fst, List.map_cons, List.flatten_cons,
        selectedMasses_append, TH1D.FillAll_append]
      rw [TH1D.FillAll_eq_Add (TH1D.new.FillAll (selectedMasses sqrt part))]

theorem timingAfter_append (clock : Clock) (xs ys : List Nat) (st : TimingState) (k : Nat) :
    timingAfter clock (xs ++ ys) st k
      = timingAfter clock ys (timingAfter clock xs st k) (k + xs.length) := by
  induction xs generalizing st k with
  | nil => rfl
  | cons x xs ih =>
      rw [List.cons_append]
      simp only [timingAfter, List.length_cons]
      rw [ih, show k + 1 + xs.length = k + (xs.length + 1) by omega]

theorem timingAfter_set (clock : Clock) (slots : List Nat) (st : TimingState) (k : Nat)
    (hset : st.ts_first_set = true) :
    (timingAfter clock slots st k).ts_first = st.ts_first := by
  induction slots generalizing st k with
  | nil => rfl
  | cons s rest ih =>
      simp only [timingAfter]
      by_cases hs : s > 0
      · simp only [TIMING, hs, if_true]
        exact ih st (k + 1) hset
      · simp only [TIMING, hs, if_false, hset, Bool.not_true, Bool.false_eq_true]
        rw [ih _ (k + 1) rfl]

theorem timingAfter_first (clock : Clock) (slots : List Nat) (st : TimingState) (k j : Nat)
    (hunset : st.ts_first_set = false) (hj : slots[j]? = some 0)
    (hfirst : ∀ i, i < j → slots[i]? ≠ some 0) :
    (timingAfter clock slots st k).ts_first = clock.iter (k + j) := by
  induction slots generalizing st k j with
  | nil => simp at hj
  | cons s rest ih =>
      simp only [timingAfter]
      cases j with
      | zero =>
          simp only [List.getElem?_cons_zero, Option.some.injEq] at hj
          subst hj
          simp only [TIMING, gt_iff_lt, lt_self_iff_false, if_false, hunset, Bool.not_false,
            if_true]
          rw [timingAfter_set clock rest _ (k + 1) rfl]
          rfl
      | succ j =>
          have hs : s > 0 := by
            have h0 := hfirst 0 (Nat.succ_pos j)
            simp only [List.getElem?_cons_zero, ne_eq, Option.some.injEq] at h0
            omega
          simp only [TIMING, hs, if_true]
          rw [ih st (k + 1) j hunset (by simpa using hj)
            (fun i hi => by simpa using hfirst (i + 1) (Nat.succ_lt_succ hi))]
          rw [show k + 1 + j = k + (j + 1) by omega]

theorem Dataframe_task_snd (sqrt : α → α) (clock : Clock) (slot : Nat)
    (part : List (Event α)) (h : TH1D) (st : TimingState) (k : Nat) :
    (Dataframe.task sqrt clock slot part (h, st, k)).2
      = (timingAfter clock (List.replicate part.length slot) st k, k + part.length) := by
  induction part generalizing h st k with
  | nil => rfl
  | cons ev rest ih =>
      simp only [Dataframe.task, ih, Dataframe_entry_snd, List.length_cons,
        List.replicate_succ, timingAfter]
      rw [show k + 1 + rest.length = k + (rest.length + 1) by omega]

theorem Dataframe_run_snd (sqrt : α → α) (clock : Clock)
    (tasks : List (Nat × List (Event α))) (st : TimingState) (k : Nat) :
    (Dataframe.run sqrt clock tasks (st, k)).2.1 = timingAfter clock (slotsOf tasks) st k
    ∧ (Dataframe.run sqrt clock tasks (st, k)).2.2 = k + (slotsOf tasks).length := by
  induction tasks generalizing st k with
  | nil => exact ⟨rfl, rfl⟩
  | cons t rest ih =>
      obtain ⟨slot, part⟩ := t
      simp only [Dataframe.run, Dataframe_task_snd, slotsOf, List.map_cons, List.flatten_cons,
        timingAfter_append, List.length_append, List.length_replicate]
      have h := ih (timingAfter clock (List.replicate part.length slot) st k) (k + part.length)
      simp only [slotsOf] at h
      refine ⟨h.1, ?_⟩
      rw [h.2]
      omega

theorem NTupleDirect_loop_keeps (sqrt : α → α) (clock : Clock) (rest : List (Event α))
    (i : Nat) (h : TH1D) (t : Int) (n : Nat) (hn : 1 ≤ n) (hlen : n + rest.length ≤ 2 ^ 32) :
    (NTupleDirect.loop sqrt clock rest i (h, t, n)).2.1 = t := by
  induction rest generalizing i h n with
  | nil => rfl
  | cons ev rest ih =>
      simp only [List.length_cons] at hlen
      simp only [NTupleDirect.loop]
      by_cases hfull : n + 1 = 2 ^ 32
      · have hr : rest = [] := by
          apply List.eq_nil_of_length_eq_zero
          omega
        subst hr
        have h1 : ¬ ((n + 1) % 2 ^ 32 = 1) := by omega
        simp only [h1, if_false, NTupleDirect.loop]
      · have h1 : ¬ ((n + 1) % 2 ^ 32 = 1) := by omega
        simp only [h1, if_false]
        apply ih
        · omega
        · omega

theorem NTupleDirect_ts_first (sqrt : α → α) (u : Nat) (clock : Clock)
    (ntuple : List (Event α)) (hne : ntuple ≠ []) (hlen : ntuple.length ≤ 2 ^ 32) :
    (NTupleDirect sqrt u clock ntuple).ts_first = clock.iter 0 := by
  cases ntuple with
  | nil => exact absurd rfl hne
  | cons ev rest =>
      simp only [List.length_cons] at hlen
      simp only [NTupleDirect, NTupleDirect.loop]
      have h1 : (0 + 1) % 2 ^ 32 = 1 := by norm_num
      simp only [h1, if_true]
      apply NTupleDirect_loop_keeps
      · exact le_refl 1
      · omega

theorem TreeDirect_loop_keeps (sqrt : α → α) (clock : Clock) (rest : List (Event α))
    (entryId : Nat) (h : TH1D) (t : Int) (hid : 2 ≤ entryId) :
    (TreeDirect.loop sqrt clock rest entryId (h, t)).2 = t := by
  induction rest generalizing entryId h with
  | nil => rfl
  | cons ev rest ih =>
      simp only [TreeDirect.loop]
      have h1 : ¬ (entryId = 1) := by omega
      simp only [h1, if_false]
      exact ih (entryId + 1) _ (by omega)

theorem TreeDirect_ts_first (sqrt : α → α) (u : Nat) (clock : Clock) (tree : List (Event α)) :
    (TreeDirect sqrt u clock tree).ts_first = if 2 ≤ tree.length then clock.iter 1 else 0 := by
  match tree with
  | [] => rfl
  | [_] => rfl
  | e0 :: e1 :: rest =>
      simp only [TreeDirect, TreeDirect.loop, List.length_cons]
      have h2 : 2 ≤ rest.length + 1 + 1 := by omega
      simp only [h2, if_true, Nat.zero_ne_one, if_false]
      exact TreeDirect_loop_keeps sqrt clock rest 2 _ _ (le_refl 2)

theorem Dataframe_ts_first (sqrt : α → α) (u : Nat) (clock : Clock)
    (tasks : List (Nat × List (Event α))) :
    (Dataframe sqrt u clock tasks).ts_first
      = (timingAfter clock (slotsOf tasks) { ts_first := 0, ts_first_set := false } 0).ts_first := by
  simp only [Dataframe]
  rw [(Dataframe_run_snd sqrt clock tasks _ 0).1]

theorem TreeDirect_hMass (sqrt : α → α) (u : Nat) (clock : Clock) (tree : List (Event α)) :
    (TreeDirect sqrt u clock tree).hMass = TH1D.new.FillAll (keptMasses sqrt tree) := by
  unfold TreeDirect
  exact TreeDirect_loop_fst sqrt clock tree 0 TH1D.new 0

theorem NTupleDirect_hMass (sqrt : α → α) (u : Nat) (clock : Clock)
    (ntuple : List (Event α)) :
    (NTupleDirect sqrt u clock ntuple).hMass = TH1D.new.FillAll (keptMasses sqrt ntuple) := by
  unfold NTupleDirect
  exact NTupleDirect_loop_fst sqrt clock ntuple 0 TH1D.new 0 0

theorem Dataframe_hMass (sqrt : α → α) (u : Nat) (clock : Clock)
    (tasks : List (Nat × List (Event α))) :
    (Dataframe sqrt u clock tasks).hMass
      = TH1D.new.FillAll (selectedMasses sqrt (tasks.map Prod.snd).flatten) := by
  unfold Dataframe
  exact Dataframe_run_fst sqrt clock tasks _ 0

theorem strategies_agree_off_threshold (sqrt : α → α) (u : Nat) (clock : Clock)
    (tasks : List (Nat × List (Event α)))
    (hoff : ∀ ev ∈ (tasks.map Prod.snd).flatten, Kept ev → Selected ev) :
    (Dataframe sqrt u clock tasks).hMass
        = (TreeDirect sqrt u clock (tasks.map Prod.snd).flatten).hMass
    ∧ (Dataframe sqrt u clock tasks).hMass
        = (NTupleDirect sqrt u clock (tasks.map Prod.snd).flatten).hMass := by
  have h : selectedMasses sqrt (tasks.map Prod.snd).flatten
      = keptMasses sqrt (tasks.map Prod.snd).flatten := by
    unfold selectedMasses keptMasses
    congr 1
    apply List.filter_congr
    intro ev hev
    by_cases hk : Kept ev
    · simp [hk, hoff ev hev hk]
    · have : ¬ Selected ev := fun hs => hk hs.kept
      simp [hk, this]
  rw [Dataframe_hMass, TreeDirect_hMass, NTupleDirect_hMass, h]
  exact ⟨rfl, rfl⟩

theorem durations_nonneg (sqrt : α → α) (u : Nat) (clock : Clock) (hc : clock.Steady)
    (tree ntuple : List (Event α)) (htree : 2 ≤ tree.length) (hne : ntuple ≠ [])
    (hlen : ntuple.length ≤ 2 ^ 32) :
    (0 ≤ (TreeDirect sqrt u clock tree).runtime_init
      ∧ 0 ≤ (TreeDirect sqrt u clock tree).runtime_analyze)
    ∧ (0 ≤ (NTupleDirect sqrt u clock ntuple).runtime_init
      ∧ 0 ≤ (NTupleDirect sqrt u clock ntuple).runtime_analyze) := by
  obtain ⟨h1, -, h3, -⟩ := hc
  have ht := TreeDirect_ts_first sqrt u clock tree
  rw [if_pos htree] at ht
  have hn := NTupleDirect_ts_first sqrt u clock ntuple hne hlen
  have e1 : (TreeDirect sqrt u clock tree).runtime_init
      = duration_cast_us u ((TreeDirect sqrt u clock tree).ts_first - clock.init) := rfl
  have e2 : (TreeDirect sqrt u clock tree).runtime_analyze
      = duration_cast_us u (clock.fin - (TreeDirect sqrt u clock tree).ts_first) := rfl
  have e3 : (NTupleDirect sqrt u clock ntuple).runtime_init
      = duration_cast_us u ((NTupleDirect sqrt u clock ntuple).ts_first - clock.init) := rfl
  have e4 : (NTupleDirect sqrt u clock ntuple).runtime_analyze
      = duration_cast_us u (clock.fin - (NTupleDirect sqrt u clock ntuple).ts_first) := rfl
  rw [e1, e2, e3, e4, ht, hn]
  unfold duration_cast_us
  have a1 := h1 1
  have a2 := h3 1
  have a3 := h1 0
  have a4 := h3 0
  exact ⟨⟨Int.tdiv_nonneg (by omega) (Int.ofNat_nonneg u),
      Int.tdiv_nonneg (by omega) (Int.ofNat_nonneg u)⟩,
    ⟨Int.tdiv_nonneg (by omega) (Int.ofNat_nonneg u),
      Int.tdiv_nonneg (by omega) (Int.ofNat_nonneg u)⟩⟩

theorem TH1D.sum_indicator (x : α) :
    (∑ k in Finset.range TH1D.nbinsx,
        if decide (TH1D.inRange x ∧ TH1D.FindBin x = k) = true then 1 else 0)
      = if decide (TH1D.inRange x) = true then 1 else 0 := by
  rcases Classical.em (TH1D.inRange x) with hx | hx
  · have hlt : TH1D.FindBin x ∈ Finset.range TH1D.nbinsx :=
      Finset.mem_range.2 (TH1D.FindBin_lt hx)
    simp only [hx, true_and, decide_True, if_true, decide_eq_true_eq]
    rw [Finset.sum_ite_eq, if_pos hlt]
  · simp only [hx, false_and, decide_False, if_false, Finset.sum_const_zero,
      Bool.false_eq_true]

theorem TH1D.Integral_FillAll_new (xs : List α) :
    (TH1D.new.FillAll xs).Integral = xs.countP (fun x => decide (TH1D.inRange x)) := by
  unfold TH1D.Integral
  simp only [TH1D.FillAll_fArray, TH1D.new, Nat.zero_add]
  induction xs with
  | nil => simp only [List.countP_nil, Finset.sum_const_zero]
  | cons x xs ih =>
      simp only [List.countP_cons, Finset.sum_add_distrib, ih]
      rw [TH1D.sum_indicator]

end LoopLemmas

section RealValues

theorem threeKaons_mass (probK probPi : ℝ) (isMuon : Int) :
    b_mass Real.sqrt (threeKaons probK probPi isMuon) = 5479.8147 := by
  have e1 : Real.sqrt ((2443.70115 : ℝ) * 2443.70115 + 0 * 0 + 0 * 0 + 493.677 * 493.677)
      = 2493.06885 := by
    rw [show (2443.70115 : ℝ) * 2443.70115 + 0 * 0 + 0 * 0 + 493.677 * 493.677
      = 2493.06885 ^ 2 by norm_num]
    exact Real.sqrt_sq (by norm_num)
  have e2 : Real.sqrt ((-2443.70115 : ℝ) * -2443.70115 + 0 * 0 + 0 * 0 + 493.677 * 493.677)
      = 2493.06885 := by
    rw [show (-2443.70115 : ℝ) * -2443.70115 + 0 * 0 + 0 * 0 + 493.677 * 493.677
      = 2493.06885 ^ 2 by norm_num]
    exact Real.sqrt_sq (by norm_num)
  have e3 : Real.sqrt ((0 : ℝ) * 0 + 0 * 0 + 0 * 0 + 493.677 * 493.677) = 493.677 := by
    rw [show (0 : ℝ) * 0 + 0 * 0 + 0 * 0 + 493.677 * 493.677 = 493.677 ^ 2 by norm_num]
    exact Real.sqrt_sq (by norm_num)
  simp only [b_mass, GetKE, GetP2, kKaonMassMeV, threeKaons, track, e1, e2, e3]
  rw [show ((2493.06885 : ℝ) + 2493.06885 + 493.677) * (2493.06885 + 2493.06885 + 493.677)
      - ((2443.70115 + -2443.70115 + 0) * (2443.70115 + -2443.70115 + 0)
        + (0 + 0 + 0) * (0 + 0 + 0) + (0 + 0 + 0) * (0 + 0 + 0)) = 5479.8147 ^ 2 by norm_num]
  exact Real.sqrt_sq (by norm_num)

theorem inRange_mass : TH1D.inRange (5479.8147 : ℝ) := by
  unfold TH1D.inRange TH1D.xlow TH1D.xup
  norm_num

theorem FindBin_mass : TH1D.FindBin (5479.8147 : ℝ) = 477 := by
  unfold TH1D.FindBin TH1D.nbinsx TH1D.xlow TH1D.xup
  rw [Nat.floor_eq_iff (by norm_num)]
  norm_num

theorem Kept_threeKaons (probK probPi : ℝ) (isMuon : Int) :
    Kept (threeKaons probK probPi isMuon) ↔ isMuon = 0 ∧ 0.5 ≤ probK ∧ probPi ≤ 0.5 := by
  simp only [Kept, Candidate.Kept, threeKaons, track]
  norm_num

theorem Selected_threeKaons (probK probPi : ℝ) (isMuon : Int) :
    Selected (threeKaons probK probPi isMuon) ↔ isMuon = 0 ∧ 0.5 < probK ∧ probPi < 0.5 := by
  simp only [Selected, Candidate.Passes, threeKaons, track]
  norm_num

theorem countP_mass_bin (n : Nat) (k : Nat) :
    (List.replicate n (5479.8147 : ℝ)).countP
        (fun x => decide (TH1D.inRange x ∧ TH1D.FindBin x = k))
      = if k = 477 then n else 0 := by
  by_cases hk : k = 477
  · subst hk
    rw [if_pos rfl, List.countP_replicate]
    simp [inRange_mass, FindBin_mass]
  · rw [if_neg hk, List.countP_replicate]
    have : ¬ (477 = k) := fun h => hk h.symm
    simp [inRange_mass, FindBin_mass, this]

theorem GetKE_mul_self (slot : Nat) (px py pz : ℝ) :
    GetKE Real.sqrt slot px py pz * GetKE Real.sqrt slot px py pz
      = px * px + py * py + pz * pz + kKaonMassMeV * kKaonMassMeV := by
  simp only [GetKE, GetP2]
  apply Real.mul_self_sqrt
  nlinarith [mul_self_nonneg px, mul_self_nonneg py, mul_self_nonneg pz,
    mul_self_nonneg (kKaonMassMeV : ℝ)]

theorem GetKE_mul_ge (slot : Nat) (x1 y1 z1 x2 y2 z2 : ℝ) :
    x1 * x2 + y1 * y2 + z1 * z2 + kKaonMassMeV * kKaonMassMeV
      ≤ GetKE Real.sqrt slot x1 y1 z1 * GetKE Real.sqrt slot x2 y2 z2 := by
  simp only [GetKE, GetP2]
  generalize (kKaonMassMeV : ℝ) = m
  have hA : 0 ≤ x1 * x1 + y1 * y1 + z1 * z1 + m * m := by
    nlinarith [mul_self_nonneg x1, mul_self_nonneg y1, mul_self_nonneg z1, mul_self_nonneg m]
  rw [← Real.sqrt_mul hA]
  refine le_trans (le_abs_self _) (Real.abs_le_sqrt ?_)
  nlinarith [sq_nonneg (x1 * y2 - x2 * y1), sq_nonneg (x1 * z2 - x2 * z1),
    sq_nonneg (y1 * z2 - y2 * z1),
    mul_nonneg (mul_self_nonneg m) (sq_nonneg (x1 - x2)),
    mul_nonneg (mul_self_nonneg m) (sq_nonneg (y1 - y2)),
    mul_nonneg (mul_self_nonneg m) (sq_nonneg (z1 - z2))]

theorem radicand_ge (ev : Event ℝ) :
    (3 * kKaonMassMeV) ^ 2
      ≤ (GetKE Real.sqrt 0 ev.H1.PX ev.H1.PY ev.H1.PZ
          + GetKE Real.sqrt 0 ev.H2.PX ev.H2.PY ev.H2.PZ
          + GetKE Real.sqrt 0 ev.H3.PX ev.H3.PY ev.H3.PZ)
        * (GetKE Real.sqrt 0 ev.H1.PX ev.H1.PY ev.H1.PZ
          + GetKE Real.sqrt 0 ev.H2.PX ev.H2.PY ev.H2.PZ
          + GetKE Real.sqrt 0 ev.H3.PX ev.H3.PY ev.H3.PZ)
        - GetP2 0 (ev.H1.PX + ev.H2.PX + ev.H3.PX) (ev.H1.PY + ev.H2.PY + ev.H3.PY)
            (ev.H1.PZ + ev.H2.PZ + ev.H3.PZ) := by
  have s1 := GetKE_mul_self 0 ev.H1.PX ev.H1.PY ev.H1.PZ
  have s2 := GetKE_mul_self 0 ev.H2.PX ev.H2.PY ev.H2.PZ
  have s3 := GetKE_mul_self 0 ev.H3.PX ev.H3.PY ev.H3.PZ
  have c12 := GetKE_mul_ge 0 ev.H1.PX ev.H1.PY ev.H1.PZ ev.H2.PX ev.H2.PY ev.H2.PZ
  have c13 := GetKE_mul_ge 0 ev.H1.PX ev.H1.PY ev.H1.PZ ev.H3.PX ev.H3.PY ev.H3.PZ
  have c23 := GetKE_mul_ge 0 ev.H2.PX ev.H2.PY ev.H2.PZ ev.H3.PX ev.H3.PY ev.H3.PZ
  simp only [GetP2]
  generalize GetKE Real.sqrt 0 ev.H1.PX ev.H1.PY ev.H1.PZ = E1 at *
  generalize GetKE Real.sqrt 0 ev.H2.PX ev.H2.PY ev.H2.PZ = E2 at *
  generalize GetKE Real.sqrt 0 ev.H3.PX ev.H3.PY ev.H3.PZ = E3 at *
  nlinarith [s1, s2, s3, c12, c13, c23]

/-- What the direct loops fill, in terms of their own tests: on every table
both call `Fill` once for each entry on which no `continue` fires (`Kept`), in
storage order, with the value `sqrt(b_E*b_E - b_p2)` of that entry, and for no
other entry.  `Kept` is weaker than the selection of the specification at the
two thresholds. -/
theorem direct_fills_once_per_kept {β : Type} [LinearOrderedField β] [FloorRing β]
    (sqrt : β → β) (u : Nat) (clock : Clock) (tree : List (Event β)) :
    (∀ ev : Event β,
        (TreeDirect.entry sqrt ev).2 = (if Kept ev then some (b_mass sqrt ev) else none)
        ∧ NTupleDirect.entry sqrt ev = (if Kept ev then some (b_mass sqrt ev) else none)
        ∧ b_mass sqrt ev
            = sqrt ((GetKE sqrt 0 ev.H1.PX ev.H1.PY ev.H1.PZ
                  + GetKE sqrt 0 ev.H2.PX ev.H2.PY ev.H2.PZ
                  + GetKE sqrt 0 ev.H3.PX ev.H3.PY ev.H3.PZ)
                * (GetKE sqrt 0 ev.H1.PX ev.H1.PY ev.H1.PZ
                  + GetKE sqrt 0 ev.H2.PX ev.H2.PY ev.H2.PZ
                  + GetKE sqrt 0 ev.H3.PX ev.H3.PY ev.H3.PZ)
                - GetP2 0 (ev.H1.PX + ev.H2.PX + ev.H3.PX) (ev.H1.PY + ev.H2.PY + ev.H3.PY)
                    (ev.H1.PZ + ev.H2.PZ + ev.H3.PZ)))
    ∧ (TreeDirect sqrt u clock tree).hMass
        = TH1D.new.FillAll ((tree.filter (fun ev => decide (Kept ev))).map (b_mass sqrt))
    ∧ (NTupleDirect sqrt u clock tree).hMass
        = TH1D.new.FillAll ((tree.filter (fun ev => decide (Kept ev))).map (b_mass sqrt))
    ∧ (TreeDirect sqrt u clock tree).hMass.fEntries
        = (tree.filter (fun ev => decide (Kept ev))).length
    ∧ (∀ k, (TreeDirect sqrt u clock tree).hMass.fArray k
        = (tree.filter (fun ev => decide (Kept ev))).countP (fun ev =>
            decide (TH1D.inRange (b_mass sqrt ev) ∧ TH1D.FindBin (b_mass sqrt ev) = k)))
    ∧ ((∀ ev ∈ tree, Kept ev → TH1D.inRange (b_mass sqrt ev)) →
        (TreeDirect sqrt u clock tree).hMass.Integral
          = (tree.filter (fun ev => decide (Kept ev))).length) := by
  refine ⟨fun ev => ⟨TreeDirect_entry_snd sqrt ev, NTupleDirect_entry_eq sqrt ev, rfl⟩,
    TreeDirect_hMass sqrt u clock tree, NTupleDirect_hMass sqrt u clock tree, ?_, ?_, ?_⟩
  · rw [TreeDirect_hMass, TH1D.FillAll_fEntries]
    simp [keptMasses, TH1D.new]
  · intro k
    rw [TreeDirect_hMass, TH1D.FillAll_fArray]
    simp [keptMasses, TH1D.new, List.countP_map, Function.comp_def]
  · intro hin
    rw [TreeDirect_hMass, TH1D.Integral_FillAll_new, keptMasses, List.countP_map,
      List.countP_eq_length]
    intro ev hev
    rw [List.mem_filter] at hev
    simpa using hin ev hev.1 (by simpa using hev.2)

/-- On the ten-row table `tenRows`, no row of which sits on a threshold, rows
2, 5 and 9 pass every cut, each with mass 5479.8147: the histogram has 3
entries, the 500 bins hold 3 counts in all, all of them in bin 477, and every
other bin is empty. -/
theorem direct_fills_tenRows :
    (tenRows : List (Event ℝ)).length = 10
    ∧ (TreeDirect Real.sqrt 1000 testClock (tenRows : List (Event ℝ))).hMass.fEntries = 3
    ∧ (TreeDirect Real.sqrt 1000 testClock (tenRows : List (Event ℝ))).hMass.Integral = 3
    ∧ (∀ k, (TreeDirect Real.sqrt 1000 testClock (tenRows : List (Event ℝ))).hMass.fArray k
        = if k = 477 then 3 else 0) := by
  have hf : (tenRows : List (Event ℝ)).filter (fun ev => decide (Kept ev))
      = List.replicate 3 (threeKaons 0.9 0.1 0) := by
    simp only [tenRows, List.filter_cons, Kept_threeKaons, List.filter_nil]
    norm_num
    rfl
  obtain ⟨-, -, -, h4, h5, h6⟩ :=
    direct_fills_once_per_kept Real.sqrt 1000 testClock (tenRows : List (Event ℝ))
  refine ⟨rfl, ?_, ?_, ?_⟩
  · rw [h4, hf]; rfl
  · rw [h6, hf]
    · rfl
    · intro ev _ _
      have : ∀ e ∈ (tenRows : List (Event ℝ)), b_mass Real.sqrt e = 5479.8147 := by
        intro e he
        simp only [tenRows, List.mem_cons, List.mem_singleton, List.not_mem_nil, or_false] at he
        rcases he with h | h | h | h | h | h | h | h | h | h <;> rw [h, threeKaons_mass]
      rw [this ev ‹_›]
      exact inRange_mass
  · intro k
    rw [h5, hf, List.countP_replicate]
    simp only [threeKaons_mass, inRange_mass, FindBin_mass, true_and, decide_eq_true_eq]
    by_cases hk : 477 = k
    · subst hk; simp
    · have : ¬ k = 477 := fun h => hk h.symm
      simp [hk, this]

end RealValues

/-! ## The claims -/

section Claims

variable {α : Type} [LinearOrderedField α]

/-- C1, the code at the threshold: an entry whose first candidate has
`H1_ProbK` exactly 0.5 (every other cut passed with room to spare) is not
selected in the sense of the specification, yet neither direct loop takes a
`continue` on it and both reach `hMass->Fill` with its mass; likewise for
`H1_ProbPi` exactly 0.5.  With `H1_ProbK = 0.50001` the entry is selected and
filled. -/
theorem direct_fills_at_threshold :
    (¬ Selected (threeKaons (0.5 : ℝ) 0.1 0)
      ∧ (TreeDirect.entry Real.sqrt (threeKaons (0.5 : ℝ) 0.1 0)).2 = some 5479.8147
      ∧ NTupleDirect.entry Real.sqrt (threeKaons (0.5 : ℝ) 0.1 0) = some 5479.8147)
    ∧ (¬ Selected (threeKaons (0.9 : ℝ) 0.5 0)
      ∧ (TreeDirect.entry Real.sqrt (threeKaons (0.9 : ℝ) 0.5 0)).2 = some 5479.8147
      ∧ NTupleDirect.entry Real.sqrt (threeKaons (0.9 : ℝ) 0.5 0) = some 5479.8147)
    ∧ (Selected (threeKaons (0.50001 : ℝ) 0.1 0)
      ∧ (TreeDirect.entry Real.sqrt (threeKaons (0.50001 : ℝ) 0.1 0)).2 = some 5479.8147
      ∧ NTupleDirect.entry Real.sqrt (threeKaons (0.50001 : ℝ) 0.1 0) = some 5479.8147) := by
  have k1 : Kept (threeKaons (0.5 : ℝ) 0.1 0) := by
    simp only [Kept, Candidate.Kept, threeKaons, track]; norm_num
  have k2 : Kept (threeKaons (0.9 : ℝ) 0.5 0) := by
    simp only [Kept, Candidate.Kept, threeKaons, track]; norm_num
  have s3 : Selected (threeKaons (0.50001 : ℝ) 0.1 0) := by
    simp only [Selected, Candidate.Passes, threeKaons, track]; norm_num
  refine ⟨⟨?_, ?_, ?_⟩, ⟨?_, ?_, ?_⟩, ⟨s3, ?_, ?_⟩⟩
  · simp only [Selected, Candidate.Passes, threeKaons, track]; norm_num
  · rw [TreeDirect_entry_snd, if_pos k1, threeKaons_mass]
  · rw [NTupleDirect_entry_eq, if_pos k1, threeKaons_mass]
  · simp only [Selected, Candidate.Passes, threeKaons, track]; norm_num
  · rw [TreeDirect_entry_snd, if_pos k2, threeKaons_mass]
  · rw [NTupleDirect_entry_eq, if_pos k2, threeKaons_mass]
  · rw [TreeDirect_entry_snd, if_pos s3.kept, threeKaons_mass]
  · rw [NTupleDirect_entry_eq, if_pos s3.kept, threeKaons_mass]

/-- C2: in `Dataframe`, on every slot, at every clock reading and in every
state of `ts_first` / `ts_first_set`, an entry gets through the `TIMING` filter
and the nine cut filters to `Histo1D` exactly when all three candidates have
`isMuon == 0`, `probK > 0.5` and `probPi < 0.5`; it then arrives with its mass;
and the `TIMING` column is always true, so its filter rejects nothing. -/
theorem Dataframe_chain_selects (sqrt : α → α) (now : Int) (slot : Nat) (st : TimingState)
    (ev : Event α) :
    ((Dataframe.entry sqrt now slot st ev).1.isSome = true ↔
        (ev.H1.isMuon = 0 ∧ ev.H1.ProbK > 0.5 ∧ ev.H1.ProbPi < 0.5)
        ∧ (ev.H2.isMuon = 0 ∧ ev.H2.ProbK > 0.5 ∧ ev.H2.ProbPi < 0.5)
        ∧ (ev.H3.isMuon = 0 ∧ ev.H3.ProbK > 0.5 ∧ ev.H3.ProbPi < 0.5))
    ∧ ((Dataframe.entry sqrt now slot st ev).1.isSome = true →
        (Dataframe.entry sqrt now slot st ev).1 = some (Dataframe.B_m sqrt slot ev))
    ∧ (TIMING now slot st).1 = true := by
  refine ⟨?_, ?_, TIMING_fst now slot st⟩
  · rw [Dataframe_entry_fst]
    by_cases h : Selected ev
    · rw [if_pos h]
      exact ⟨fun _ => h, fun _ => rfl⟩
    · rw [if_neg h]
      exact ⟨fun hn => by simp at hn, fun hs => absurd hs h⟩
  · rw [Dataframe_entry_fst, Dataframe_B_m_eq]
    by_cases h : Selected ev <;> simp [h]

/-- C3, the code on a one-entry table: the entry has `H1_ProbK` exactly 0.5 and
passes every other cut, and its mass 5479.8147 lies in bin 477 of the 500.
`TreeDirect` and `NTupleDirect` fill it (one entry, one count in that bin);
`Dataframe`, run single-threaded on slot 0 over the same table, fills nothing.
The strategies disagree. -/
theorem strategies_disagree_at_threshold :
    ((TreeDirect Real.sqrt 1000 testClock [threeKaons (0.5 : ℝ) 0.1 0]).hMass.fEntries = 1
      ∧ (TreeDirect Real.sqrt 1000 testClock [threeKaons (0.5 : ℝ) 0.1 0]).hMass.fArray 477 = 1)
    ∧ ((NTupleDirect Real.sqrt 1000 testClock [threeKaons (0.5 : ℝ) 0.1 0]).hMass.fEntries = 1
      ∧ (NTupleDirect Real.sqrt 1000 testClock [threeKaons (0.5 : ℝ) 0.1 0]).hMass.fArray 477
          = 1)
    ∧ ((Dataframe Real.sqrt 1000 testClock [(0, [threeKaons (0.5 : ℝ) 0.1 0])]).hMass.fEntries
          = 0
      ∧ (Dataframe Real.sqrt 1000 testClock [(0, [threeKaons (0.5 : ℝ) 0.1 0])]).hMass.fArray 477
          = 0) := by
  have hk : keptMasses Real.sqrt [threeKaons (0.5 : ℝ) 0.1 0] = List.replicate 1 5479.8147 := by
    have : Kept (threeKaons (0.5 : ℝ) 0.1 0) := (Kept_threeKaons _ _ _).2 (by norm_num)
    simp [keptMasses, this, threeKaons_mass]
  have hs : selectedMasses Real.sqrt
      ([((0 : Nat), [threeKaons (0.5 : ℝ) 0.1 0])].map Prod.snd).flatten = [] := by
    have : ¬ Selected (threeKaons (0.5 : ℝ) 0.1 0) := by
      rw [Selected_threeKaons]; norm_num
    simp [selectedMasses, this]
  rw [TreeDirect_hMass, NTupleDirect_hMass, Dataframe_hMass, hk, hs]
  simp only [TH1D.FillAll_fEntries, TH1D.FillAll_fArray, countP_mass_bin, TH1D.new]
  simp

/-- C4, the code on a ten-row table in which exactly rows 2, 5 and 9 are
selected (`isMuon == 0`, `probK > 0.5`, `probPi < 0.5` for all three
candidates) and row 0 has `H1_ProbK` exactly 0.5: row 0 is rejected by the
selection, yet the direct loops call `Fill` for it, so the histogram has 4
entries for 3 surviving events, all 4 in bin 477.  On the one-row table made of
row 0 alone the histogram has 1 entry for 0 surviving events. -/
theorem direct_fills_rejected_row :
    ((tenRowsAtThreshold : List (Event ℝ)).length = 10
      ∧ (tenRowsAtThreshold : List (Event ℝ)).map (fun ev => decide (Selected ev))
          = [false, false, true, false, false, true, false, false, false, true]
      ∧ ((tenRowsAtThreshold : List (Event ℝ)).filter (fun ev => decide (Selected ev))).length
          = 3)
    ∧ (¬ Selected (threeKaons (0.5 : ℝ) 0.1 0)
      ∧ (TreeDirect.entry Real.sqrt (threeKaons (0.5 : ℝ) 0.1 0)).2 = some 5479.8147
      ∧ NTupleDirect.entry Real.sqrt (threeKaons (0.5 : ℝ) 0.1 0) = some 5479.8147)
    ∧ ((TreeDirect Real.sqrt 1000 testClock
          (tenRowsAtThreshold : List (Event ℝ))).hMass.fEntries = 4
      ∧ (TreeDirect Real.sqrt 1000 testClock
          (tenRowsAtThreshold : List (Event ℝ))).hMass.Integral = 4
      ∧ (TreeDirect Real.sqrt 1000 testClock
          (tenRowsAtThreshold : List (Event ℝ))).hMass.fArray 477 = 4)
    ∧ ((NTupleDirect Real.sqrt 1000 testClock
          (tenRowsAtThreshold : List (Event ℝ))).hMass.fEntries = 4
      ∧ (NTupleDirect Real.sqrt 1000 testClock
          (tenRowsAtThreshold : List (Event ℝ))).hMass.Integral = 4
      ∧ (NTupleDirect Real.sqrt 1000 testClock
          (tenRowsAtThreshold : List (Event ℝ))).hMass.fArray 477 = 4)
    ∧ (([threeKaons (0.5 : ℝ) 0.1 0].filter (fun ev => decide (Selected ev))).length = 0
      ∧ (TreeDirect Real.sqrt 1000 testClock [threeKaons (0.5 : ℝ) 0.1 0]).hMass.fEntries = 1
      ∧ (NTupleDirect Real.sqrt 1000 testClock [threeKaons (0.5 : ℝ) 0.1 0]).hMass.fEntries
          = 1) := by
  have hsel : (tenRowsAtThreshold : List (Event ℝ)).map (fun ev => decide (Selected ev))
      = [false, false, true, false, false, true, false, false, false, true] := by
    simp only [tenRowsAtThreshold, List.map_cons, List.map_nil, Selected_threeKaons]
    norm_num
  have hcount : ((tenRowsAtThreshold : List (Event ℝ)).filter
      (fun ev => decide (Selected ev))).length = 3 := by
    simp only [tenRowsAtThreshold, List.filter_cons, Selected_threeKaons, List.filter_nil]
    norm_num
  have hns : ¬ Selected (threeKaons (0.5 : ℝ) 0.1 0) := by
    rw [Selected_threeKaons]; norm_num
  have hk : Kept (threeKaons (0.5 : ℝ) 0.1 0) := (Kept_threeKaons _ _ _).2 (by norm_num)
  have hm10 : keptMasses Real.sqrt (tenRowsAtThreshold : List (Event ℝ))
      = List.replicate 4 5479.8147 := by
    simp only [keptMasses, tenRowsAtThreshold, List.filter_cons, Kept_threeKaons,
      List.filter_nil]
    norm_num [threeKaons_mass]
    rfl
  have hm1 : keptMasses Real.sqrt [threeKaons (0.5 : ℝ) 0.1 0] = List.replicate 1 5479.8147 := by
    simp [keptMasses, hk, threeKaons_mass]
  have hin : ∀ n : Nat, (List.replicate n (5479.8147 : ℝ)).countP
      (fun x => decide (TH1D.inRange x)) = n := by
    intro n
    rw [List.countP_replicate]
    simp [inRange_mass]
  refine ⟨⟨rfl, hsel, hcount⟩, ⟨hns, ?_, ?_⟩, ⟨?_, ?_, ?_⟩, ⟨?_, ?_, ?_⟩, ⟨?_, ?_, ?_⟩⟩
  · rw [TreeDirect_entry_snd, if_pos hk, threeKaons_mass]
  · rw [NTupleDirect_entry_eq, if_pos hk, threeKaons_mass]
  · rw [TreeDirect_hMass, hm10, TH1D.FillAll_fEntries]; rfl
  · rw [TreeDirect_hMass, hm10, TH1D.Integral_FillAll_new, hin]
  · rw [TreeDirect_hMass, hm10, TH1D.FillAll_fArray, countP_mass_bin]; rfl
  · rw [NTupleDirect_hMass, hm10, TH1D.FillAll_fEntries]; rfl
  · rw [NTupleDirect_hMass, hm10, TH1D.Integral_FillAll_new, hin]
  · rw [NTupleDirect_hMass, hm10, TH1D.FillAll_fArray, countP_mass_bin]; rfl
  · simp [hns]
  · rw [TreeDirect_hMass, hm1, TH1D.FillAll_fEntries]; rfl
  · rw [NTupleDirect_hMass, hm1, TH1D.FillAll_fEntries]; rfl

/-- C5: however the entries are split into contiguous partitions (any number
of them, empty ones included), on whatever slots and in whatever timing state
the partitions are processed, the per-bin sum of the partial histograms equals
the histogram of one sequential pass over all the entries; this holds for the
`Dataframe` graph and for the direct loops. -/
theorem partition_merge {β : Type} [LinearOrderedField β] [FloorRing β]
    (sqrt : β → β) (u : Nat) (clock : Clock) (tasks : List (Nat × List (Event β)))
    (st st0 : TimingState) (k k0 slot0 : Nat) :
    (Dataframe.run sqrt clock tasks (st, k)).1
        = (Dataframe.task sqrt clock slot0 (tasks.map Prod.snd).flatten (TH1D.new, st0, k0)).1
    ∧ TH1D.Merge (tasks.map (fun t => (Dataframe.task sqrt clock t.1 t.2 (TH1D.new, st, k)).1))
        = (Dataframe.task sqrt clock slot0 (tasks.map Prod.snd).flatten (TH1D.new, st0, k0)).1
    ∧ TH1D.Merge (tasks.map (fun t => (TreeDirect sqrt u clock t.2).hMass))
        = (TreeDirect sqrt u clock (tasks.map Prod.snd).flatten).hMass
    ∧ TH1D.Merge (tasks.map (fun t => (NTupleDirect sqrt u clock t.2).hMass))
        = (NTupleDirect sqrt u clock (tasks.map Prod.snd).flatten).hMass := by
  refine ⟨?_, ?_, ?_, ?_⟩
  · rw [Dataframe_run_fst, Dataframe_task_fst]
  · rw [Dataframe_task_fst]
    simp only [Dataframe_task_fst]
    induction tasks with
    | nil => rfl
    | cons t rest ih =>
        simp only [List.map_cons, List.flatten_cons, selectedMasses_append,
          TH1D.FillAll_append]
        rw [TH1D.FillAll_eq_Add (TH1D.new.FillAll (selectedMasses sqrt t.2)), ← ih]
        rfl
  · simp only [TreeDirect_hMass]
    induction tasks with
    | nil => rfl
    | cons t rest ih =>
        simp only [List.map_cons, List.flatten_cons, keptMasses_append, TH1D.FillAll_append]
        rw [TH1D.FillAll_eq_Add (TH1D.new.FillAll (keptMasses sqrt t.2)), ← ih]
        rfl
  · simp only [NTupleDirect_hMass]
    induction tasks with
    | nil => rfl
    | cons t rest ih =>
        simp only [List.map_cons, List.flatten_cons, keptMasses_append, TH1D.FillAll_append]
        rw [TH1D.FillAll_eq_Add (TH1D.new.FillAll (keptMasses sqrt t.2)), ← ih]
        rfl

/-- C6 as stated fails.  In a run of `Dataframe` whose first entry is processed
on slot 1 and whose second entry is processed on slot 0, the first evaluation
of the `TIMING` stage happens while the clock reads 5 001 000 ticks, but
`ts_first` ends up as 5 002 000, the reading at the first evaluation on
slot 0.  In `TreeDirect` on a tree of two entries `ts_first` is likewise
5 002 000, the reading at the top of the pass for the second entry
(`entryId == 1`), not the 5 001 000 of the pass for the first. -/
theorem ts_first_not_at_first_evaluation :
    slotsOf [(1, [threeKaons (0.9 : ℝ) 0.1 0]), (0, [threeKaons (0.9 : ℝ) 0.1 0])] = [1, 0]
    ∧ testClock.iter 0 = 5001000
    ∧ (Dataframe Real.sqrt 1000 testClock
        [(1, [threeKaons (0.9 : ℝ) 0.1 0]), (0, [threeKaons (0.9 : ℝ) 0.1 0])]).ts_first
        = 5002000
    ∧ (Dataframe Real.sqrt 1000 testClock
        [(1, [threeKaons (0.9 : ℝ) 0.1 0]), (0, [threeKaons (0.9 : ℝ) 0.1 0])]).ts_first
        ≠ testClock.iter 0
    ∧ (TreeDirect Real.sqrt 1000 testClock
        [threeKaons (0.9 : ℝ) 0.1 0, threeKaons (0.9 : ℝ) 0.1 0]).ts_first = 5002000
    ∧ (TreeDirect Real.sqrt 1000 testClock
        [threeKaons (0.9 : ℝ) 0.1 0, threeKaons (0.9 : ℝ) 0.1 0]).ts_first
        ≠ testClock.iter 0 := by
  have hd : (Dataframe Real.sqrt 1000 testClock
      [(1, [threeKaons (0.9 : ℝ) 0.1 0]), (0, [threeKaons (0.9 : ℝ) 0.1 0])]).ts_first
      = 5002000 := by
    rw [Dataframe_ts_first]
    rfl
  have ht : (TreeDirect Real.sqrt 1000 testClock
      [threeKaons (0.9 : ℝ) 0.1 0, threeKaons (0.9 : ℝ) 0.1 0]).ts_first = 5002000 := by
    rw [TreeDirect_ts_first]
    rfl
  have h0 : testClock.iter 0 = 5001000 := rfl
  refine ⟨rfl, h0, hd, ?_, ht, ?_⟩
  · rw [hd, h0]; decide
  · rw [ht, h0]; decide

/-- C6, amended.  In `NTupleDirect` on a non-empty ntuple of at most 2^32
entries `ts_first` is the clock reading at the top of the pass for the first
index, before any view is read, and no later pass changes it.  In `Dataframe`
`ts_first` is the reading at the first evaluation of the `TIMING` stage on
slot 0 (the `j`-th evaluation of the run, no earlier one being on slot 0);
evaluations on other slots never take or change it.  In all three strategies
the printed values are `ts_first - ts_init` and `ts_end - ts_first` converted
to whole microseconds. -/
theorem ts_first_taken_at_first_event {β : Type} [LinearOrderedField β] [FloorRing β]
    (sqrt : β → β) (u : Nat) (clock : Clock) (ntuple tree : List (Event β))
    (tasks : List (Nat × List (Event β))) (j : Nat)
    (hne : ntuple ≠ []) (hlen : ntuple.length ≤ 2 ^ 32)
    (hj : (slotsOf tasks)[j]? = some 0) (hfirst : ∀ i, i < j → (slotsOf tasks)[i]? ≠ some 0) :
    (NTupleDirect sqrt u clock ntuple).ts_first = clock.iter 0
    ∧ (Dataframe sqrt u clock tasks).ts_first = clock.iter j
    ∧ ((NTupleDirect sqrt u clock ntuple).runtime_init
          = duration_cast_us u ((NTupleDirect sqrt u clock ntuple).ts_first - clock.init)
      ∧ (NTupleDirect sqrt u clock ntuple).runtime_analyze
          = duration_cast_us u (clock.fin - (NTupleDirect sqrt u clock ntuple).ts_first))
    ∧ ((Dataframe sqrt u clock tasks).runtime_init
          = duration_cast_us u ((Dataframe sqrt u clock tasks).ts_first - clock.init)
      ∧ (Dataframe sqrt u clock tasks).runtime_analyze
          = duration_cast_us u (clock.fin - (Dataframe sqrt u clock tasks).ts_first))
    ∧ ((TreeDirect sqrt u clock tree).runtime_init
          = duration_cast_us u ((TreeDirect sqrt u clock tree).ts_first - clock.init)
      ∧ (TreeDirect sqrt u clock tree).runtime_analyze
          = duration_cast_us u (clock.fin - (TreeDirect sqrt u clock tree).ts_first)) := by
  refine ⟨NTupleDirect_ts_first sqrt u clock ntuple hne hlen, ?_, ⟨rfl, rfl⟩, ⟨rfl, rfl⟩,
    ⟨rfl, rfl⟩⟩
  rw [Dataframe_ts_first, timingAfter_first clock (slotsOf tasks) _ 0 j rfl hj hfirst,
    Nat.zero_add]

/-- C6, amended, on concrete runs: `NTupleDirect` over two entries takes
`ts_first` at the top of the first pass (5 001 000 ticks, reported
initialization 1 µs); `Dataframe` with three entries on slots 2, 1, 0 takes it
at the third evaluation of `TIMING` (5 003 000 ticks, reported initialization
3 µs). -/
theorem ts_first_taken_at_first_event_witness :
    (NTupleDirect Real.sqrt 1000 testClock
        [threeKaons (0.9 : ℝ) 0.1 0, threeKaons (0.2 : ℝ) 0.1 0]).ts_first = 5001000
    ∧ (Dataframe Real.sqrt 1000 testClock
        [(2, [threeKaons (0.9 : ℝ) 0.1 0]), (1, [threeKaons (0.9 : ℝ) 0.1 0]),
         (0, [threeKaons (0.9 : ℝ) 0.1 0])]).ts_first = 5003000
    ∧ (NTupleDirect Real.sqrt 1000 testClock
        [threeKaons (0.9 : ℝ) 0.1 0, threeKaons (0.2 : ℝ) 0.1 0]).runtime_init = 1
    ∧ (Dataframe Real.sqrt 1000 testClock
        [(2, [threeKaons (0.9 : ℝ) 0.1 0]), (1, [threeKaons (0.9 : ℝ) 0.1 0]),
         (0, [threeKaons (0.9 : ℝ) 0.1 0])]).runtime_init = 3 := by
  obtain ⟨h1, h2, ⟨h3, -⟩, ⟨h4, -⟩, -⟩ :=
    ts_first_taken_at_first_event Real.sqrt 1000 testClock
      [threeKaons (0.9 : ℝ) 0.1 0, threeKaons (0.2 : ℝ) 0.1 0] []
      [(2, [threeKaons (0.9 : ℝ) 0.1 0]), (1, [threeKaons (0.9 : ℝ) 0.1 0]),
       (0, [threeKaons (0.9 : ℝ) 0.1 0])] 2
      (by simp) (by simp) (by rfl)
      (by
        intro i hi
        have : i = 0 ∨ i = 1 := by omega
        rcases this with h | h <;> subst h <;> simp [slotsOf])
  refine ⟨h1, h2, ?_, ?_⟩
  · rw [h3, h1]; rfl
  · rw [h4, h2]; rfl

/-- C7, the code on a one-entry tree and on an empty ntuple, under a steady
clock that reads 5 000 000 ticks (5 s at 1000 ticks per µs) when `ts_init` is
taken: `TreeDirect` takes `ts_first` only in the pass with `entryId == 1`,
which a one-entry tree never reaches, so `ts_first` stays at the epoch and the
printed initialization is -5000 µs; the same happens in `NTupleDirect` on an
empty ntuple. -/
theorem negative_initialization :
    testClock.Steady
    ∧ (TreeDirect Real.sqrt 1000 testClock [threeKaons (0.9 : ℝ) 0.1 0]).ts_first = 0
    ∧ (TreeDirect Real.sqrt 1000 testClock [threeKaons (0.9 : ℝ) 0.1 0]).runtime_init = -5000
    ∧ (NTupleDirect Real.sqrt 1000 testClock ([] : List (Event ℝ))).ts_first = 0
    ∧ (NTupleDirect Real.sqrt 1000 testClock ([] : List (Event ℝ))).runtime_init = -5000 := by
  refine ⟨testClock_steady, rfl, rfl, rfl, rfl⟩

/-- C8: the invariant mass does not depend on the order of the three
candidates.  For every permutation `σ` of the three positions, the value
`sqrt(b_E*b_E - b_p2)` computed by the direct loops, and the column `B_m`
computed by `Dataframe` on any slot, are the same for the candidates
`c (σ 0), c (σ 1), c (σ 2)` as for `c 0, c 1, c 2`; so are the summed momentum
components and the summed energy (exact arithmetic, any `sqrt`). -/
theorem mass_symmetric (sqrt : α → α) (slot : Nat) (c : Fin 3 → Candidate α)
    (σ : Equiv.Perm (Fin 3)) :
    b_mass sqrt (Event.ofFn (c ∘ σ)) = b_mass sqrt (Event.ofFn c)
    ∧ Dataframe.B_m sqrt slot (Event.ofFn (c ∘ σ)) = Dataframe.B_m sqrt slot (Event.ofFn c)
    ∧ (c (σ 0)).PX + (c (σ 1)).PX + (c (σ 2)).PX = (c 0).PX + (c 1).PX + (c 2).PX
    ∧ (c (σ 0)).PY + (c (σ 1)).PY + (c (σ 2)).PY = (c 0).PY + (c 1).PY + (c 2).PY
    ∧ (c (σ 0)).PZ + (c (σ 1)).PZ + (c (σ 2)).PZ = (c 0).PZ + (c 1).PZ + (c 2).PZ
    ∧ GetKE sqrt 0 (c (σ 0)).PX (c (σ 0)).PY (c (σ 0)).PZ
        + GetKE sqrt 0 (c (σ 1)).PX (c (σ 1)).PY (c (σ 1)).PZ
        + GetKE sqrt 0 (c (σ 2)).PX (c (σ 2)).PY (c (σ 2)).PZ
      = GetKE sqrt 0 (c 0).PX (c 0).PY (c 0).PZ + GetKE sqrt 0 (c 1).PX (c 1).PY (c 1).PZ
        + GetKE sqrt 0 (c 2).PX (c 2).PY (c 2).PZ := by
  have key : ∀ f : Candidate α → α,
      f (c (σ 0)) + f (c (σ 1)) + f (c (σ 2)) = f (c 0) + f (c 1) + f (c 2) := by
    intro f
    have h := Equiv.sum_comp σ (fun i => f (c i))
    simpa [Fin.sum_univ_three] using h
  have hx := key (fun d => d.PX)
  have hy := key (fun d => d.PY)
  have hz := key (fun d => d.PZ)
  have hE := key (fun d => GetKE sqrt 0 d.PX d.PY d.PZ)
  simp only at hx hy hz hE
  refine ⟨?_, ?_, hx, hy, hz, hE⟩
  · simp only [b_mass, Event.ofFn, Function.comp_apply, hx, hy, hz, hE]
  · simp only [Dataframe_B_m_eq, b_mass, Event.ofFn, Function.comp_apply, hx, hy, hz, hE]

/-- C9: whatever the slot argument, `GetP2` is `px*px + py*py + pz*pz` and
`GetKE` is `sqrt(GetP2 + 493.677 * 493.677)`; a particle at rest has energy
493.677, the charged-kaon mass (exact real arithmetic). -/
theorem GetP2_GetKE_values (slot : Nat) (px py pz : ℝ) :
    GetP2 slot px py pz = px * px + py * py + pz * pz
    ∧ GetKE Real.sqrt slot px py pz = Real.sqrt (GetP2 slot px py pz + 493.677 * 493.677)
    ∧ GetKE Real.sqrt slot 0 0 0 = (493.677 : ℝ) := by
  refine ⟨rfl, rfl, ?_⟩
  simp only [GetKE, GetP2, kKaonMassMeV]
  rw [show (0 : ℝ) * 0 + 0 * 0 + 0 * 0 + 493.677 * 493.677 = 493.677 ^ 2 by norm_num]
  exact Real.sqrt_sq (by norm_num)

/-- C10: once an input path is given, the strategies `main` runs and its
return value depend only on the format of the path's suffix and on `use_rdf`:
`kRoot` runs `TreeDirect` or, with rdf, `Dataframe` over the tree; `kNtuple`
runs `NTupleDirect` or, with rdf, `Dataframe` over the RNTuple data source, and
`main` returns 0; for every other format no strategy runs and `main` returns
1. -/
theorem main_selects_strategy (GetSuffix : String → String)
    (GetFileFormat : String → FileFormats) (input_path : String) (use_rdf g_use_imt : Bool)
    (hpath : input_path.isEmpty = false) :
    let r := main GetSuffix GetFileFormat input_path use_rdf g_use_imt
    (r.1.filter Call.isStrategy, r.2) =
      match GetFileFormat (GetSuffix input_path), use_rdf with
      | .kRoot, false => ([Call.TreeDirect input_path], 0)
      | .kRoot, true => ([Call.DataframeTree input_path 1], 0)
      | .kNtuple, false => ([Call.NTupleDirect input_path], 0)
      | .kNtuple, true => ([Call.DataframeNTuple input_path 1], 0)
      | .other _, _ => ([], 1) := by
  intro r
  simp only [r, main, hpath, Bool.false_eq_true, if_false]
  cases GetFileFormat (GetSuffix input_path) <;> cases use_rdf <;> cases g_use_imt <;>
    simp [Call.isStrategy]

/-- C10 at a concrete input: `-i B2HHH.ntuple -r -R` with a suffix table that
knows `.root` and `.ntuple` runs `Dataframe` over the RNTuple data source,
once, and returns 0. -/
theorem main_selects_strategy_witness :
    "B2HHH.ntuple".isEmpty = false
    ∧ ((main (fun p => String.mk (p.data.dropWhile (fun ch => ch != '.')))
          (fun s => if s = ".root" then .kRoot else if s = ".ntuple" then .kNtuple else .other 0)
          "B2HHH.ntuple" true true).1.filter Call.isStrategy,
        (main (fun p => String.mk (p.data.dropWhile (fun ch => ch != '.')))
          (fun s => if s = ".root" then .kRoot else if s = ".ntuple" then .kNtuple else .other 0)
          "B2HHH.ntuple" true true).2)
      = ([Call.DataframeNTuple "B2HHH.ntuple" 1], 0) := by
  refine ⟨by decide, ?_⟩
  have h := main_selects_strategy (fun p => String.mk (p.data.dropWhile (fun ch => ch != '.')))
    (fun s => if s = ".root" then .kRoot else if s = ".ntuple" then .kNtuple else .other 0)
    "B2HHH.ntuple" true true (by decide)
  have e : String.mk ("B2HHH.ntuple".data.dropWhile (fun ch => ch != '.')) = ".ntuple" := by
    decide
  simp only [e] at h
  exact h

/-- C11: lazy fetch in `TreeDirect`.  In every pass of the loop body the
branches on which `GetEntry` is called form an initial piece of the fixed
order isMuon(H1,H2,H3), probK(H1,H2,H3), probPi(H1,H2,H3), nine momenta; the
branch of a check is fetched exactly when every check before it did not
reject the entry, and a momentum branch exactly when none of the nine checks
rejected it.  Hence an entry rejected by the muon veto fetches only muon
flags, none of the other 15 fields; the 12 fields probPi and momentum are
fetched only after all muon and kaon-probability checks passed; the 9
momentum fields only for entries that survive all nine checks. -/
theorem TreeDirect_lazy_fetch (sqrt : α → α) (ev : Event α) :
    TreeDirect.fetched sqrt ev <+: TreeDirect.fetchOrder
    ∧ (Branch.H1_isMuon ∈ TreeDirect.fetched sqrt ev
      ∧ (Branch.H2_isMuon ∈ TreeDirect.fetched sqrt ev ↔ ev.H1.isMuon = 0)
      ∧ (Branch.H3_isMuon ∈ TreeDirect.fetched sqrt ev ↔ ev.H1.isMuon = 0 ∧ ev.H2.isMuon = 0))
    ∧ ((Branch.H1_ProbK ∈ TreeDirect.fetched sqrt ev ↔
          (ev.H1.isMuon = 0 ∧ ev.H2.isMuon = 0 ∧ ev.H3.isMuon = 0))
      ∧ (Branch.H2_ProbK ∈ TreeDirect.fetched sqrt ev ↔
          (ev.H1.isMuon = 0 ∧ ev.H2.isMuon = 0 ∧ ev.H3.isMuon = 0) ∧ ¬ ev.H1.ProbK < 0.5)
      ∧ (Branch.H3_ProbK ∈ TreeDirect.fetched sqrt ev ↔
          (ev.H1.isMuon = 0 ∧ ev.H2.isMuon = 0 ∧ ev.H3.isMuon = 0)
          ∧ ¬ ev.H1.ProbK < 0.5 ∧ ¬ ev.H2.ProbK < 0.5))
    ∧ ((Branch.H1_ProbPi ∈ TreeDirect.fetched sqrt ev ↔
          (ev.H1.isMuon = 0 ∧ ev.H2.isMuon = 0 ∧ ev.H3.isMuon = 0)
          ∧ (¬ ev.H1.ProbK < 0.5 ∧ ¬ ev.H2.ProbK < 0.5 ∧ ¬ ev.H3.ProbK < 0.5))
      ∧ (Branch.H2_ProbPi ∈ TreeDirect.fetched sqrt ev ↔
          (ev.H1.isMuon = 0 ∧ ev.H2.isMuon = 0 ∧ ev.H3.isMuon = 0)
          ∧ (¬ ev.H1.ProbK < 0.5 ∧ ¬ ev.H2.ProbK < 0.5 ∧ ¬ ev.H3.ProbK < 0.5)
          ∧ ¬ ev.H1.ProbPi > 0.5)
      ∧ (Branch.H3_ProbPi ∈ TreeDirect.fetched sqrt ev ↔
          (ev.H1.isMuon = 0 ∧ ev.H2.isMuon = 0 ∧ ev.H3.isMuon = 0)
          ∧ (¬ ev.H1.ProbK < 0.5 ∧ ¬ ev.H2.ProbK < 0.5 ∧ ¬ ev.H3.ProbK < 0.5)
          ∧ ¬ ev.H1.ProbPi > 0.5 ∧ ¬ ev.H2.ProbPi > 0.5))
    ∧ (∀ b : Branch, b.isMomentum = true →
        (b ∈ TreeDirect.fetched sqrt ev ↔
          (ev.H1.isMuon = 0 ∧ ev.H2.isMuon = 0 ∧ ev.H3.isMuon = 0)
          ∧ (¬ ev.H1.ProbK < 0.5 ∧ ¬ ev.H2.ProbK < 0.5 ∧ ¬ ev.H3.ProbK < 0.5)
          ∧ (¬ ev.H1.ProbPi > 0.5 ∧ ¬ ev.H2.ProbPi > 0.5 ∧ ¬ ev.H3.ProbPi > 0.5)))
    ∧ (¬ (ev.H1.isMuon = 0 ∧ ev.H2.isMuon = 0 ∧ ev.H3.isMuon = 0) →
        ∀ b ∈ TreeDirect.fetched sqrt ev, b.isMuonFlag = true)
    ∧ (∀ b ∈ TreeDirect.fetched sqrt ev, (b.isProbPi = true ∨ b.isMomentum = true) →
        (ev.H1.isMuon = 0 ∧ ev.H2.isMuon = 0 ∧ ev.H3.isMuon = 0)
        ∧ (¬ ev.H1.ProbK < 0.5 ∧ ¬ ev.H2.ProbK < 0.5 ∧ ¬ ev.H3.ProbK < 0.5))
    ∧ (TreeDirect.fetchOrder.length = 18
      ∧ (TreeDirect.fetchOrder.filter (fun b => !b.isMuonFlag)).length = 15
      ∧ (TreeDirect.fetchOrder.filter (fun b => b.isProbPi || b.isMomentum)).length = 12
      ∧ (TreeDirect.fetchOrder.filter Branch.isMomentum).length = 9) := by
  refine ⟨?_, ?_, ?_, ?_, ?_, ?_, ?_, ⟨rfl, rfl, rfl, rfl⟩⟩
  all_goals
    rcases TreeDirect_fetched_cases sqrt ev with
      ⟨h1, hf⟩ | ⟨h1, h2, hf⟩ | ⟨h1, h2, h3, hf⟩ | ⟨⟨h1, h2, h3⟩, h4, hf⟩
      | ⟨⟨h1, h2, h3⟩, h4, h5, hf⟩ | ⟨⟨h1, h2, h3⟩, ⟨h4, h5⟩, h6, hf⟩
      | ⟨⟨h1, h2, h3⟩, ⟨h4, h5, h6⟩, h7, hf⟩ | ⟨⟨h1, h2, h3⟩, ⟨h4, h5, h6⟩, h7, h8, hf⟩
      | ⟨⟨h1, h2, h3⟩, ⟨h4, h5, h6⟩, ⟨h7, h8⟩, h9, hf⟩
      | ⟨⟨h1, h2, h3⟩, ⟨h4, h5, h6⟩, ⟨h7, h8, h9⟩, hf⟩
  all_goals rw [hf]
  all_goals
    first
    | exact List.take_prefix _ _
    | exact List.prefix_refl _
    | (intro b; cases b <;> simp [TreeDirect.fetchOrder, Branch.isMomentum, Branch.isMuonFlag,
        Branch.isProbPi, *])
    | simp [TreeDirect.fetchOrder, Branch.isMomentum, Branch.isMuonFlag, Branch.isProbPi, *]

/-- C11 on three concrete entries.  With a muon flag on the first candidate
only `H1_isMuon` is looked at: `H2_isMuon`, `H1_ProbK` and `H1_PX` are not
fetched.  With `H1_ProbK = 0.2` the muon flags and `H1_ProbK` are fetched but
neither `H1_ProbPi` nor `H1_PX`.  An entry that passes every check has
`H3_PZ` fetched. -/
theorem TreeDirect_lazy_fetch_witness :
    (Branch.H2_isMuon ∉ TreeDirect.fetched Real.sqrt (threeKaons (0.9 : ℝ) 0.1 1)
      ∧ Branch.H1_ProbK ∉ TreeDirect.fetched Real.sqrt (threeKaons (0.9 : ℝ) 0.1 1)
      ∧ Branch.H1_PX ∉ TreeDirect.fetched Real.sqrt (threeKaons (0.9 : ℝ) 0.1 1))
    ∧ (Branch.H1_ProbK ∈ TreeDirect.fetched Real.sqrt (threeKaons (0.2 : ℝ) 0.1 0)
      ∧ Branch.H1_ProbPi ∉ TreeDirect.fetched Real.sqrt (threeKaons (0.2 : ℝ) 0.1 0)
      ∧ Branch.H1_PX ∉ TreeDirect.fetched Real.sqrt (threeKaons (0.2 : ℝ) 0.1 0))
    ∧ Branch.H3_PZ ∈ TreeDirect.fetched Real.sqrt (threeKaons (0.9 : ℝ) 0.1 0) := by
  obtain ⟨-, ⟨-, a2, -⟩, ⟨a4, -, -⟩, -, a10, -, -, -⟩ :=
    TreeDirect_lazy_fetch Real.sqrt (threeKaons (0.9 : ℝ) 0.1 1)
  obtain ⟨-, -, ⟨b4, -, -⟩, ⟨b7, -, -⟩, b10, -, -, -⟩ :=
    TreeDirect_lazy_fetch Real.sqrt (threeKaons (0.2 : ℝ) 0.1 0)
  obtain ⟨-, -, -, -, c10, -, -, -⟩ :=
    TreeDirect_lazy_fetch Real.sqrt (threeKaons (0.9 : ℝ) 0.1 0)
  refine ⟨⟨?_, ?_, ?_⟩, ⟨?_, ?_, ?_⟩, ?_⟩
  · rw [a2]; simp [threeKaons, track]
  · rw [a4]; simp [threeKaons, track]
  · rw [a10 Branch.H1_PX rfl]; simp [threeKaons, track]
  · rw [b4]; simp [threeKaons, track]
  · rw [b7]; simp only [threeKaons, track]; norm_num
  · rw [b10 Branch.H1_PX rfl]; simp only [threeKaons, track]; norm_num
  · rw [c10 Branch.H3_PZ rfl]; simp only [threeKaons, track]; norm_num

/-- C12: the radicand of the mass is never negative.  For every entry with
real momenta, selected or not, `b_E*b_E - b_p2` is at least
`(3 * 493.677)^2`, which is positive; so the mass is a genuine square root of
the radicand and is at least `3 * 493.677 = 1481.031`, in the direct loops
and in the column `B_m` of `Dataframe` on any slot. -/
theorem radicand_never_negative (slot : Nat) (ev : Event ℝ) :
    b_radicand Real.sqrt ev
        = (GetKE Real.sqrt 0 ev.H1.PX ev.H1.PY ev.H1.PZ
            + GetKE Real.sqrt 0 ev.H2.PX ev.H2.PY ev.H2.PZ
            + GetKE Real.sqrt 0 ev.H3.PX ev.H3.PY ev.H3.PZ)
          * (GetKE Real.sqrt 0 ev.H1.PX ev.H1.PY ev.H1.PZ
            + GetKE Real.sqrt 0 ev.H2.PX ev.H2.PY ev.H2.PZ
            + GetKE Real.sqrt 0 ev.H3.PX ev.H3.PY ev.H3.PZ)
          - GetP2 0 (ev.H1.PX + ev.H2.PX + ev.H3.PX) (ev.H1.PY + ev.H2.PY + ev.H3.PY)
              (ev.H1.PZ + ev.H2.PZ + ev.H3.PZ)
    ∧ (3 * 493.677 : ℝ) ^ 2 ≤ b_radicand Real.sqrt ev
    ∧ (0 : ℝ) < (3 * 493.677) ^ 2
    ∧ b_mass Real.sqrt ev = Real.sqrt (b_radicand Real.sqrt ev)
    ∧ b_mass Real.sqrt ev * b_mass Real.sqrt ev = b_radicand Real.sqrt ev
    ∧ (3 * 493.677 : ℝ) ≤ b_mass Real.sqrt ev
    ∧ (3 * 493.677 : ℝ) = 1481.031
    ∧ Dataframe.B_m Real.sqrt slot ev = b_mass Real.sqrt ev := by
  have hr : (3 * 493.677 : ℝ) ^ 2 ≤ b_radicand Real.sqrt ev := by
    have h := radicand_ge ev
    simp only [kKaonMassMeV] at h
    exact h
  have hpos : (0 : ℝ) < (3 * 493.677) ^ 2 := by norm_num
  have hm : b_mass Real.sqrt ev = Real.sqrt (b_radicand Real.sqrt ev) := rfl
  refine ⟨rfl, hr, hpos, hm, ?_, ?_, by norm_num, rfl⟩
  · rw [hm]
    exact Real.mul_self_sqrt (le_trans hpos.le hr)
  · rw [hm]
    exact (Real.le_sqrt (by norm_num) (le_trans hpos.le hr)).2 hr

end Claims

end Lhcb
